import Mathlib

/-!
Shallow embedding of the multi-provider analysis orchestration engine of
`llm-visibility-v1` (src/services/geminiService.ts together with the type
declarations of src/unnamed/part_001), and proofs about the claims on it.

Modelling conventions:
* Network I/O is abstracted by an oracle: for each (prompt index, provider)
  pair a `NetBehavior` records what every wire call of that provider's
  three-stage chain would yield.  A thrown JS error is modelled by its
  `message` string (the adapters only consume `e.message`).
* `JSON.parse` outcomes are part of the oracle, recorded at the exact
  boundary where each adapter consumes them (whole payload for
  OpenAI/Copilot, schema-constrained array for Gemini, first fenced block
  for Perplexity).  The fenced-block extraction itself
  (`match(/\x60\x60\x60json\n([\s\S]*?)\n\x60\x60\x60/)`) is implemented
  concretely on strings.
* JS truthiness matters in several branches (`if (!apiKey)`,
  `config.models[provider] || 'default'`, `if (response.error)`); it is
  modelled by `jsTruthy`, under which a missing value and the empty string
  are both falsy.
* JS single-threaded run-to-completion semantics make the start of each
  prompt's provider mappers deterministic (in provider order); only the
  settlement order of the concurrently awaited calls is nondeterministic.
  That nondeterminism is a `schedule` parameter.
-/

set_option linter.unusedVariables false

namespace LlmVis

/-- The four supported providers (`Provider` of src/unnamed/part_001). -/
inductive Provider
  | gemini
  | openai
  | perplexity
  | copilot
deriving DecidableEq, Repr

/-- `ApiKeys` of src/unnamed/part_001; optional string fields. -/
structure ApiKeys where
  gemini : Option String := none
  openai : Option String := none
  perplexity : Option String := none
  copilotKey : Option String := none
  copilotEndpoint : Option String := none
deriving DecidableEq, Repr

/-- Sentiment enumeration of `BrandAnalysis.sentiment`. -/
inductive Sentiment
  | positive
  | neutral
  | negative
  | notMentioned
deriving DecidableEq, Repr

/-- `BrandAnalysis` of src/unnamed/part_001. -/
structure BrandAnalysis where
  brandName : String
  mentions : Nat
  sentiment : Sentiment
deriving DecidableEq, Repr

/-- `AdditionalQuestionAnswer` of src/unnamed/part_001. -/
structure AdditionalQuestionAnswer where
  question : String
  answer : String
deriving DecidableEq, Repr

/-- `ProviderResponse` of src/unnamed/part_001; `error` is the optional field. -/
structure ProviderResponse where
  provider : Provider
  response : String
  brandAnalyses : List BrandAnalysis
  additionalAnswers : List AdditionalQuestionAnswer
  error : Option String := none
deriving DecidableEq, Repr

/-- `AnalysisResult` of src/unnamed/part_001. -/
structure AnalysisResult where
  prompt : String
  providerResponses : List ProviderResponse
deriving DecidableEq, Repr

/-- Task lifecycle states of `Task.status`. -/
inductive TaskStatus
  | pending
  | in_progress
  | completed
  | error
deriving DecidableEq, Repr, Inhabited

/-- `Task` of src/unnamed/part_001. -/
structure Task where
  id : String
  description : String
  status : TaskStatus
  error : Option String := none
deriving DecidableEq, Repr, Inhabited

/-- `AppConfig` of src/unnamed/part_001; `models` is a partial record. -/
structure AppConfig where
  providers : List Provider
  apiKeys : ApiKeys
  models : Provider → Option String
  clientName : String
  competitors : List String
  prompts : List String
  additionalQuestions : List String

/-- `LlmClients` of src/unnamed/part_001.  The `GoogleGenAI` client object is
modelled by the API key it was constructed from; the OpenAI and Perplexity
clients are plain API-key strings; the Copilot client is key and endpoint. -/
structure LlmClients where
  gemini : Option String
  openai : Option String
  perplexity : Option String
  copilot : Option (String × String)
deriving DecidableEq, Repr

/-- JS truthiness of an optional string slot: absent (`undefined`/`null`) and
the empty string are falsy, any other string is truthy. -/
def jsTruthy : Option String → Bool
  | none => false
  | some s => !(s == "")

/-- `initializeClients` of src/services/geminiService.ts (lines 12-35).
Only a selected Gemini provider with a falsy API key throws; the other three
providers are bound only when their credentials are truthy and are otherwise
silently left unset. -/
def initializeClients (config : AppConfig) : Except String LlmClients :=
  if config.providers.contains Provider.gemini && !(jsTruthy config.apiKeys.gemini) then
    Except.error "Google Gemini API Key is missing."
  else
    Except.ok
      { gemini :=
          if config.providers.contains Provider.gemini then config.apiKeys.gemini else none
        openai :=
          if config.providers.contains Provider.openai && jsTruthy config.apiKeys.openai then
            config.apiKeys.openai
          else none
        perplexity :=
          if config.providers.contains Provider.perplexity && jsTruthy config.apiKeys.perplexity then
            config.apiKeys.perplexity
          else none
        copilot :=
          if config.providers.contains Provider.copilot && jsTruthy config.apiKeys.copilotKey
              && jsTruthy config.apiKeys.copilotEndpoint then
            match config.apiKeys.copilotKey, config.apiKeys.copilotEndpoint with
            | some k, some e => some (k, e)
            | _, _ => none
          else none }

/-- Outcome of one wire call (fetch / generateContent): the reply content, or
a thrown error carrying its `message`. -/
inductive Fetch
  | ok (content : String)
  | err (msg : String)
deriving DecidableEq, Repr

/-- Outcome of `JSON.parse(payload).brands` on a whole stage-2 payload, for
the providers that parse the entire reply as one JSON object:
`missing` models a payload that parses but has no usable `brands` array
(the code then takes `\x7c\x7c []`), `present l` a payload whose `brands`
is the array `l`. -/
inductive BrandsPayload
  | missing
  | present (l : List BrandAnalysis)
deriving DecidableEq, Repr

/-- What the oracle says every wire call of one (prompt, provider) chain
would yield.  `raw` is stage 1, `analysis` stage 2 (its content string is
what Perplexity's regex scans), `answers n` the auxiliary call for question
index `n`.  The three parse fields record the `JSON.parse` outcome at the
boundary each adapter uses (`Except.error m` is a parse throw with message
`m`): `geminiParse` for Gemini's schema-constrained array payload,
`brandsParse` for the OpenAI/Copilot whole-payload object, `blockParse` for
the first fenced block of Perplexity's reply.  (A Perplexity block that
parses but lacks a `brands` array would yield JS `undefined` for
`brandAnalyses`, a value outside the `ProviderResponse` type; such replies
are not modelled.) -/
structure NetBehavior where
  raw : Fetch
  analysis : Fetch
  geminiParse : Except String (List BrandAnalysis)
  brandsParse : Except String BrandsPayload
  blockParse : Except String (List BrandAnalysis)
  answers : Nat → Fetch

/-- The error-shaped `ProviderResponse` every adapter's catch block builds. -/
def errorResponse (p : Provider) (msg : String) : ProviderResponse :=
  { provider := p, response := "", brandAnalyses := [], additionalAnswers := [], error := some msg }

/-- Stage 3 for one adapter: `Promise.all(additionalQuestions.map(...))`.
Each question's call is made independently; the gathered list preserves
question order; if any call throws, the whole gather rejects (the model
determinizes the winning rejection to the first failing index). -/
def collectAnswersAux (ans : Nat → Fetch) : Nat → List String → Except String (List AdditionalQuestionAnswer)
  | _, [] => Except.ok []
  | i, question :: rest =>
    match ans i with
    | Fetch.err m => Except.error m
    | Fetch.ok answer =>
      match collectAnswersAux ans (i + 1) rest with
      | Except.error m => Except.error m
      | Except.ok tail => Except.ok ({ question := question, answer := answer } :: tail)

/-- Stage 3 over the configured question list. -/
def collectAnswers (questions : List String) (ans : Nat → Fetch) :
    Except String (List AdditionalQuestionAnswer) :=
  collectAnswersAux ans 0 questions

/-- `runGeminiAnalysisForPrompt` of src/services/geminiService.ts
(lines 77-105): raw completion, then schema-constrained JSON extraction
(`JSON.parse(analysisResult.text)`), then the auxiliary gather; any throw is
caught and converted to the error shape with all data fields empty. -/
def runGeminiAnalysisForPrompt (config : AppConfig) (net : NetBehavior) : ProviderResponse :=
  match net.raw with
  | Fetch.err msg => errorResponse Provider.gemini msg
  | Fetch.ok response =>
    match net.analysis with
    | Fetch.err msg => errorResponse Provider.gemini msg
    | Fetch.ok _ =>
      match net.geminiParse with
      | Except.error msg => errorResponse Provider.gemini msg
      | Except.ok brandAnalyses =>
        match collectAnswers config.additionalQuestions net.answers with
        | Except.error msg => errorResponse Provider.gemini msg
        | Except.ok additionalAnswers =>
          { provider := Provider.gemini, response := response,
            brandAnalyses := brandAnalyses, additionalAnswers := additionalAnswers,
            error := none }

/-- `runOpenAIAnalysisForPrompt` of src/services/geminiService.ts
(lines 108-136): whole stage-2 payload parsed as one JSON object,
`JSON.parse(content).brands \x7c\x7c []`. -/
def runOpenAIAnalysisForPrompt (config : AppConfig) (net : NetBehavior) : ProviderResponse :=
  match net.raw with
  | Fetch.err msg => errorResponse Provider.openai msg
  | Fetch.ok response =>
    match net.analysis with
    | Fetch.err msg => errorResponse Provider.openai msg
    | Fetch.ok _ =>
      match net.brandsParse with
      | Except.error msg => errorResponse Provider.openai msg
      | Except.ok payload =>
        let brandAnalyses := match payload with
          | BrandsPayload.missing => []
          | BrandsPayload.present l => l
        match collectAnswers config.additionalQuestions net.answers with
        | Except.error msg => errorResponse Provider.openai msg
        | Except.ok additionalAnswers =>
          { provider := Provider.openai, response := response,
            brandAnalyses := brandAnalyses, additionalAnswers := additionalAnswers,
            error := none }

/-- The characters of the opening delimiter `\x60\x60\x60json\n` of the
Perplexity fenced-block regex. -/
def fenceOpen : List Char := '`' :: '`' :: '`' :: 'j' :: 's' :: 'o' :: 'n' :: '\n' :: []

/-- The characters of the closing delimiter `\n\x60\x60\x60`. -/
def fenceClose : List Char := '\n' :: '`' :: '`' :: '`' :: []

/-- Characters strictly before the first occurrence of `fenceClose`, if any
(the lazy `([\s\S]*?)` capture). -/
def takeToClose : List Char → Option (List Char)
  | [] => none
  | c :: rest =>
    if fenceClose.isPrefixOf (c :: rest) then some []
    else match takeToClose rest with
      | some cap => some (c :: cap)
      | none => none

/-- `content.match(/\x60\x60\x60json\n([\s\S]*?)\n\x60\x60\x60/)` of
src/services/geminiService.ts line 149: scan left to right for the first
position where the opening delimiter matches and a closing delimiter follows;
the capture is the shortest text between them.  `none` models a null match. -/
def extractJsonBlockAux : List Char → Option (List Char)
  | [] => none
  | c :: rest =>
    if fenceOpen.isPrefixOf (c :: rest) then
      match takeToClose (List.drop fenceOpen.length (c :: rest)) with
      | some cap => some cap
      | none => extractJsonBlockAux rest
    else extractJsonBlockAux rest

/-- Fenced-block extraction on a string. -/
def extractJsonBlock (s : String) : Option (List Char) :=
  extractJsonBlockAux s.data

/-- `runPerplexityAnalysisForPrompt` of src/services/geminiService.ts
(lines 139-167).  The stage-2 reply is free text; the first fenced
`json` code block is extracted by regex.  A null match yields
`brandAnalyses = []` with no error (the ternary's else branch); a matched
block is `JSON.parse`d, and only that parse can throw. -/
def runPerplexityAnalysisForPrompt (config : AppConfig) (net : NetBehavior) : ProviderResponse :=
  match net.raw with
  | Fetch.err msg => errorResponse Provider.perplexity msg
  | Fetch.ok pResponse =>
    match net.analysis with
    | Fetch.err msg => errorResponse Provider.perplexity msg
    | Fetch.ok content =>
      match extractJsonBlock content with
      | none =>
        match collectAnswers config.additionalQuestions net.answers with
        | Except.error msg => errorResponse Provider.perplexity msg
        | Except.ok additionalAnswers =>
          { provider := Provider.perplexity, response := pResponse,
            brandAnalyses := [], additionalAnswers := additionalAnswers,
            error := none }
      | some _ =>
        match net.blockParse with
        | Except.error msg => errorResponse Provider.perplexity msg
        | Except.ok brandAnalyses =>
          match collectAnswers config.additionalQuestions net.answers with
          | Except.error msg => errorResponse Provider.perplexity msg
          | Except.ok additionalAnswers =>
            { provider := Provider.perplexity, response := pResponse,
              brandAnalyses := brandAnalyses, additionalAnswers := additionalAnswers,
              error := none }

/-- `runCopilotAnalysisForPrompt` of src/services/geminiService.ts
(lines 170-201): same consumption shape as the OpenAI adapter (whole
payload, `.brands \x7c\x7c []`), against the Azure-style endpoint. -/
def runCopilotAnalysisForPrompt (config : AppConfig) (net : NetBehavior) : ProviderResponse :=
  match net.raw with
  | Fetch.err msg => errorResponse Provider.copilot msg
  | Fetch.ok response =>
    match net.analysis with
    | Fetch.err msg => errorResponse Provider.copilot msg
    | Fetch.ok _ =>
      match net.brandsParse with
      | Except.error msg => errorResponse Provider.copilot msg
      | Except.ok payload =>
        let brandAnalyses := match payload with
          | BrandsPayload.missing => []
          | BrandsPayload.present l => l
        match collectAnswers config.additionalQuestions net.answers with
        | Except.error msg => errorResponse Provider.copilot msg
        | Except.ok additionalAnswers =>
          { provider := Provider.copilot, response := response,
            brandAnalyses := brandAnalyses, additionalAnswers := additionalAnswers,
            error := none }

/-- Decimal digit characters of `n`, accumulator style (the semantics of the
JS template interpolation of a number, as in the task id
`prompt-$\x7bpIndex\x7d-$\x7bprovider\x7d`).  The fuel argument only bounds
the recursion; `n + 1` units always suffice. -/
def natCharsAux : Nat → Nat → List Char → List Char
  | 0, _, acc => acc
  | fuel + 1, n, acc =>
    let c := Nat.digitChar (n % 10)
    if n < 10 then c :: acc else natCharsAux fuel (n / 10) (c :: acc)

/-- Decimal string characters of a natural number. -/
def natChars (n : Nat) : List Char := natCharsAux (n + 1) n []

theorem natCharsAux_eq_digits (n : Nat) (hn : 0 < n) :
    ∀ (fuel : Nat) (acc : List Char), n ≤ fuel →
      natCharsAux fuel n acc = ((Nat.digits 10 n).map Nat.digitChar).reverse ++ acc := by
  induction n using Nat.strong_induction_on with
  | _ n ih =>
    intro fuel acc hf
    match fuel with
    | 0 => omega
    | m + 1 =>
      by_cases h10 : n < 10
      · have hd : Nat.digits 10 n = [n] := Nat.digits_of_lt 10 n (by omega) h10
        simp [natCharsAux, h10, hd, Nat.mod_eq_of_lt h10]
      · have hd : Nat.digits 10 n = n % 10 :: Nat.digits 10 (n / 10) :=
          Nat.digits_def' (by norm_num) hn
        have hdivpos : 0 < n / 10 := Nat.div_pos (Nat.le_of_not_lt h10) (by norm_num)
        have hdivlt : n / 10 < n := Nat.div_lt_self hn (by norm_num)
        have hfuel : n / 10 ≤ m := by omega
        simp only [natCharsAux, if_neg h10]
        rw [ih (n / 10) hdivlt hdivpos m _ hfuel, hd]
        simp

theorem natChars_pos (n : Nat) (hn : 0 < n) :
    natChars n = ((Nat.digits 10 n).map Nat.digitChar).reverse := by
  have := natCharsAux_eq_digits n hn (n + 1) [] (by omega)
  simpa [natChars] using this

theorem natChars_zero : natChars 0 = ['0'] := by rfl

theorem digitChar_inj_lt : ∀ a < 10, ∀ b < 10, Nat.digitChar a = Nat.digitChar b → a = b := by
  decide

theorem digitChar_ne_dash : ∀ a < 10, Nat.digitChar a ≠ '-' := by decide

theorem map_digitChar_inj : ∀ (l1 l2 : List Nat), (∀ x ∈ l1, x < 10) → (∀ x ∈ l2, x < 10) →
    l1.map Nat.digitChar = l2.map Nat.digitChar → l1 = l2 := by
  intro l1
  induction l1 with
  | nil => intro l2 _ _ h; cases l2 <;> simp_all
  | cons x xs ih =>
    intro l2 h1 h2 h
    cases l2 with
    | nil => simp_all
    | cons y ys =>
      simp only [List.map_cons, List.cons.injEq] at h
      have hx : x = y := digitChar_inj_lt x (h1 x (by simp)) y (h2 y (by simp)) h.1
      have : xs = ys := ih ys (fun z hz => h1 z (by simp [hz])) (fun z hz => h2 z (by simp [hz])) h.2
      simp [hx, this]

theorem digits_all_lt (n : Nat) : ∀ d ∈ Nat.digits 10 n, d < 10 :=
  fun _ hd => Nat.digits_lt_base (by norm_num) hd

theorem natChars_inj (m n : Nat) (h : natChars m = natChars n) : m = n := by
  rcases Nat.eq_zero_or_pos m with hm | hm <;> rcases Nat.eq_zero_or_pos n with hnn | hnn
  · omega
  · subst hm
    rw [natChars_zero, natChars_pos n hnn] at h
    have : (Nat.digits 10 n).map Nat.digitChar = ['0'] := by
      have := congrArg List.reverse h
      simpa using this.symm
    have hd : Nat.digits 10 n = [0] :=
      map_digitChar_inj _ [0] (digits_all_lt n) (by simp) (by simpa using this)
    have := Nat.ofDigits_digits 10 n
    rw [hd] at this
    simp [Nat.ofDigits] at this
    omega
  · subst hnn
    rw [natChars_zero, natChars_pos m hm] at h
    have : (Nat.digits 10 m).map Nat.digitChar = ['0'] := by
      have := congrArg List.reverse h
      simpa using this
    have hd : Nat.digits 10 m = [0] :=
      map_digitChar_inj _ [0] (digits_all_lt m) (by simp) (by simpa using this)
    have := Nat.ofDigits_digits 10 m
    rw [hd] at this
    simp [Nat.ofDigits] at this
    omega
  · rw [natChars_pos m hm, natChars_pos n hnn] at h
    have h2 := List.reverse_injective h
    have hd : Nat.digits 10 m = Nat.digits 10 n :=
      map_digitChar_inj _ _ (digits_all_lt m) (digits_all_lt n) h2
    have h3 := Nat.ofDigits_digits 10 m
    rw [hd, Nat.ofDigits_digits] at h3
    omega

theorem natChars_ne_dash (n : Nat) : ∀ c ∈ natChars n, c ≠ '-' := by
  rcases Nat.eq_zero_or_pos n with hn | hn
  · subst hn; rw [natChars_zero]; decide
  · rw [natChars_pos n hn]
    intro c hc
    simp only [List.mem_reverse, List.mem_map] at hc
    obtain ⟨d, hd, rfl⟩ := hc
    exact digitChar_ne_dash d (digits_all_lt n d hd)

/-- The runtime tag string of each provider (the `Provider` union values). -/
def providerKey : Provider → String
  | Provider.gemini => "gemini"
  | Provider.openai => "openai"
  | Provider.perplexity => "perplexity"
  | Provider.copilot => "copilot"

/-- Display names `providerBaseNames` of src/services/geminiService.ts. -/
def providerBaseNames : Provider → String
  | Provider.gemini => "Google Gemini"
  | Provider.openai => "OpenAI"
  | Provider.perplexity => "Perplexity"
  | Provider.copilot => "Copilot / Azure"

/-- Characters of the task id `prompt-$\x7bpIndex\x7d-$\x7bprovider\x7d`
(src/services/geminiService.ts line 214). -/
def mkIdChars (i : Nat) (p : Provider) : List Char :=
  "prompt-".data ++ natChars i ++ '-' :: (providerKey p).data

/-- The task id string for the (prompt index, provider) pair. -/
def mkId (i : Nat) (p : Provider) : String := ⟨mkIdChars i p⟩

theorem dashSplit : ∀ (a c b d : List Char), '-' ∉ a → '-' ∉ c →
    a ++ '-' :: b = c ++ '-' :: d → a = c ∧ b = d := by
  intro a
  induction a with
  | nil =>
    intro c b d _ hc h
    cases c with
    | nil => simpa using h
    | cons y ys =>
      simp only [List.nil_append, List.cons_append, List.cons.injEq] at h
      exact absurd (by simp [← h.1]) hc
  | cons x xs ih =>
    intro c b d ha hc h
    cases c with
    | nil =>
      simp only [List.nil_append, List.cons_append, List.cons.injEq] at h
      exact absurd (by simp [h.1]) ha
    | cons y ys =>
      simp only [List.cons_append, List.cons.injEq] at h
      have := ih ys b d (fun hx => ha (by simp [hx])) (fun hx => hc (by simp [hx])) h.2
      exact ⟨by simp [h.1, this.1], this.2⟩

theorem providerKey_inj : ∀ p q : Provider, providerKey p = providerKey q → p = q := by
  intro p q
  cases p <;> cases q <;> intro h <;> first | rfl | exact absurd h (by decide)

theorem mkId_inj (i j : Nat) (p q : Provider) (h : mkId i p = mkId j q) : i = j ∧ p = q := by
  have hchars : mkIdChars i p = mkIdChars j q := congrArg String.data h
  unfold mkIdChars at hchars
  rw [List.append_assoc, List.append_assoc] at hchars
  have h2 : natChars i ++ '-' :: (providerKey p).data
      = natChars j ++ '-' :: (providerKey q).data :=
    List.append_cancel_left hchars
  have h3 := dashSplit _ _ _ _ (by
      intro hmem
      exact natChars_ne_dash i '-' hmem rfl)
    (by
      intro hmem
      exact natChars_ne_dash j '-' hmem rfl) h2
  refine ⟨natChars_inj i j h3.1, providerKey_inj p q ?_⟩
  have := h3.2
  exact String.ext this

/-- The task built for the (prompt index, provider) pair
(src/services/geminiService.ts lines 211-217): truncated prompt preview,
display name, model name defaulted under JS truthiness
(`config.models[provider] \x7c\x7c 'default'`), status `pending`. -/
def mkTask (config : AppConfig) (i : Nat) (p : Provider) : Task :=
  let prompt := config.prompts.getD i ""
  let modelName := if jsTruthy (config.models p) then (config.models p).getD "" else "default"
  let shortPrompt := if prompt.length > 40 then prompt.take 40 ++ "..." else prompt
  { id := mkId i p
    description :=
      "Analyzing \"" ++ shortPrompt ++ "\" with " ++ providerBaseNames p
        ++ " (" ++ modelName ++ ")"
    status := TaskStatus.pending
    error := none }

/-- Tasks pushed for the first `n` prompts, prompt-major, provider-minor
(the nested forEach of src/services/geminiService.ts lines 209-219). -/
def tasksFor (config : AppConfig) : Nat → List Task
  | 0 => []
  | i + 1 => tasksFor config i ++ config.providers.map (mkTask config i)

/-- The whole initial task list of a run. -/
def buildTasks (config : AppConfig) : List Task := tasksFor config config.prompts.length

/-- The dispatch guard of the orchestrator's switch
(src/services/geminiService.ts lines 240-259): each arm throws when its
client bundle or its configured model is JS-falsy. -/
def checkProvider (clients : LlmClients) (config : AppConfig) : Provider → Option String
  | Provider.gemini =>
    if clients.gemini.isSome && jsTruthy (config.models Provider.gemini) then none
    else some "Gemini client not initialized properly."
  | Provider.openai =>
    if jsTruthy clients.openai && jsTruthy (config.models Provider.openai) then none
    else some "OpenAI client not initialized properly."
  | Provider.perplexity =>
    if jsTruthy clients.perplexity && jsTruthy (config.models Provider.perplexity) then none
    else some "Perplexity client not initialized properly."
  | Provider.copilot =>
    if clients.copilot.isSome && jsTruthy (config.models Provider.copilot) then none
    else some "Copilot client not initialized properly."

/-- The first dispatch throw in provider order, if any: the provider mappers
start synchronously in selection order, so the first arm whose guard fails is
the rejection `Promise.all` propagates. -/
def firstThrow (clients : LlmClients) (config : AppConfig) : Option String :=
  config.providers.findSome? (checkProvider clients config)

/-- One `updateTaskStatus(taskId, status, error?)` request
(src/services/geminiService.ts lines 222-229). -/
structure Upd where
  id : String
  status : TaskStatus
  errMsg : Option String
deriving DecidableEq, Repr

/-- The in-place mutation of one task: status always set, the error field
only overwritten when the argument is JS-truthy (`if (error) ...`). -/
def setTask (t : Task) (u : Upd) : Task :=
  { t with status := u.status
           error := if jsTruthy u.errMsg then u.errMsg else t.error }

/-- `tasks.findIndex(t => t.id === taskId)` followed by the in-place update;
`none` models `taskIndex === -1` (no mutation, no emission). -/
def applyUpd : List Task → Upd → Option (List Task)
  | [], _ => none
  | t :: ts, u =>
    if t.id = u.id then some (setTask t u :: ts)
    else match applyUpd ts u with
      | some ts2 => some (t :: ts2)
      | none => none

/-- Micro-events of a run in execution order: an `updateTaskStatus` call, the
issuance of a provider's first network call, or a dispatch-guard throw. -/
inductive MEv
  | upd (u : Upd)
  | net (pIdx : Nat) (p : Provider)
  | cthrow (msg : String)
deriving DecidableEq, Repr

/-- Externally observable events: an `onProgress` emission carrying the full
current task list, a network call issuance, or a configuration throw. -/
inductive Event
  | emit (snapshot : List Task)
  | netCall (pIdx : Nat) (p : Provider)
  | configThrow (msg : String)
deriving DecidableEq, Repr

/-- Interpret micro-events over the mutable task list, producing the final
list and the observable event trace (an emission after every found update). -/
def execMEvs : List Task → List MEv → List Task × List Event
  | ts, [] => (ts, [])
  | ts, MEv.upd u :: rest =>
    match applyUpd ts u with
    | some ts2 =>
      let r := execMEvs ts2 rest
      (r.1, Event.emit ts2 :: r.2)
    | none => execMEvs ts rest
  | ts, MEv.net i p :: rest =>
    let r := execMEvs ts rest
    (r.1, Event.netCall i p :: r.2)
  | ts, MEv.cthrow m :: rest =>
    let r := execMEvs ts rest
    (r.1, Event.configThrow m :: r.2)

/-- The oracle fixing what every wire call of each (prompt index, provider)
chain would yield. -/
abbrev Oracle := Nat → Provider → NetBehavior

/-- The settlement schedule: for each prompt, the order (by provider
position) in which the concurrently awaited provider calls settle. -/
abbrev Schedule := Nat → List Nat

/-- Normalize a schedule entry to a genuine settlement order: any list that
is not a permutation of the provider positions is replaced by the selection
order.  Settlement order in JS is always some permutation of the issued
calls; this map lets every theorem quantify over arbitrary schedules. -/
def settleOrder (n : Nat) (l : List Nat) : List Nat :=
  if l.length = n ∧ ∀ k ∈ List.range n, k ∈ l then l else List.range n

/-- The switch dispatch to the four adapters (exhaustive over `Provider`). -/
def runProviderFor (p : Provider) (config : AppConfig) (net : NetBehavior) : ProviderResponse :=
  match p with
  | Provider.gemini => runGeminiAnalysisForPrompt config net
  | Provider.openai => runOpenAIAnalysisForPrompt config net
  | Provider.perplexity => runPerplexityAnalysisForPrompt config net
  | Provider.copilot => runCopilotAnalysisForPrompt config net

/-- The task update made when the provider at position `k` settles for prompt
`i` (src/services/geminiService.ts lines 262-269): `completed` when
`response.error` is JS-falsy, otherwise `error` carrying the message. -/
def settleUpd (config : AppConfig) (oracle : Oracle) (i k : Nat) : Upd :=
  let p := config.providers.getD k Provider.gemini
  let r := runProviderFor p config (oracle i p)
  if jsTruthy r.error then { id := mkId i p, status := TaskStatus.error, errMsg := r.error }
  else { id := mkId i p, status := TaskStatus.completed, errMsg := none }

/-- The synchronous start phase of one prompt's provider mappers, in
selection order: each marks its task `in_progress`, then either issues its
first network call or throws its dispatch guard. -/
def startMEvs (clients : LlmClients) (config : AppConfig) (i : Nat) : List MEv :=
  config.providers.flatMap fun p =>
    MEv.upd { id := mkId i p, status := TaskStatus.in_progress, errMsg := none } ::
      (match checkProvider clients config p with
       | some msg => [MEv.cthrow msg]
       | none => [MEv.net i p])

/-- The settlement phase of one prompt: terminal task updates in schedule
order. -/
def settleMEvs (config : AppConfig) (oracle : Oracle) (sched : Schedule) (i : Nat) : List MEv :=
  (settleOrder config.providers.length (sched i)).map fun k =>
    MEv.upd (settleUpd config oracle i k)

/-- Micro-events of a whole run with no dispatch throw: prompts strictly in
input order, each prompt's start phase followed by its settlements. -/
def runMEvs (clients : LlmClients) (config : AppConfig) (oracle : Oracle)
    (sched : Schedule) : List MEv :=
  (List.range config.prompts.length).flatMap fun i =>
    startMEvs clients config i ++ settleMEvs config oracle sched i

/-- `Promise.all` assembly of one prompt's provider responses: positional,
in provider-selection order, independent of settlement order. -/
def promptResponses (config : AppConfig) (oracle : Oracle) (i : Nat) : List ProviderResponse :=
  config.providers.map fun p => runProviderFor p config (oracle i p)

/-- The final ordered `AnalysisResult[]` of a completed run. -/
def runResults (config : AppConfig) (oracle : Oracle) : List AnalysisResult :=
  (List.range config.prompts.length).map fun i =>
    { prompt := config.prompts.getD i "", providerResponses := promptResponses config oracle i }

/-- Everything a run produces: its returned (or thrown) value, the
observable event trace, and the final state of the task list. -/
structure RunTrace where
  result : Except String (List AnalysisResult)
  events : List Event
  finalTasks : List Task

/-- `runAnalysis` of src/services/geminiService.ts (lines 205-282).
A Gemini key failure in `initializeClients` throws before the task list is
even built.  Otherwise the tasks are built and emitted once; if some
selected provider's dispatch guard fails, the first prompt's mappers still
all start (synchronously, before `Promise.all` is awaited) and then the
first guard's error rejects the run — settlements of already-started sibling
calls land after the rejection and are outside the model.  With every guard
passing, each prompt runs start phase then settlements, and the ordered
results are returned. -/
def runAnalysisModel (config : AppConfig) (oracle : Oracle) (sched : Schedule) : RunTrace :=
  match initializeClients config with
  | Except.error msg => { result := Except.error msg, events := [], finalTasks := [] }
  | Except.ok clients =>
    match firstThrow clients config with
    | some msg =>
      if config.prompts.length = 0 then
        { result := Except.ok [], events := [Event.emit (buildTasks config)],
          finalTasks := buildTasks config }
      else
        { result := Except.error msg
          events := Event.emit (buildTasks config)
            :: (execMEvs (buildTasks config) (startMEvs clients config 0)).2
          finalTasks := (execMEvs (buildTasks config) (startMEvs clients config 0)).1 }
    | none =>
      { result := Except.ok (runResults config oracle)
        events := Event.emit (buildTasks config)
          :: (execMEvs (buildTasks config) (runMEvs clients config oracle sched)).2
        finalTasks := (execMEvs (buildTasks config) (runMEvs clients config oracle sched)).1 }

/-- The `onProgress` snapshots among a list of events, in order. -/
def snapsOf (evs : List Event) : List (List Task) :=
  evs.filterMap fun e => match e with
    | Event.emit s => some s
    | _ => none

/-- The `onProgress` emissions of a run, in order. -/
def emissions (tr : RunTrace) : List (List Task) := snapsOf tr.events

/-- Whether a micro-event is an `updateTaskStatus` call. -/
def isUpd : MEv → Bool
  | MEv.upd _ => true
  | _ => false

/-- The status of the task at position `j` of a snapshot. -/
def statusAt (j : Nat) (s : List Task) : TaskStatus := (s.getD j default).status

theorem setTask_id (t : Task) (u : Upd) : (setTask t u).id = t.id := rfl

theorem setTask_status (t : Task) (u : Upd) : (setTask t u).status = u.status := rfl

theorem snapsOf_append (l1 l2 : List Event) :
    snapsOf (l1 ++ l2) = snapsOf l1 ++ snapsOf l2 := by
  simp [snapsOf, List.filterMap_append]

theorem snapsOf_cons_emit (s : List Task) (evs : List Event) :
    snapsOf (Event.emit s :: evs) = s :: snapsOf evs := rfl

theorem snapsOf_cons_net (i : Nat) (p : Provider) (evs : List Event) :
    snapsOf (Event.netCall i p :: evs) = snapsOf evs := rfl

theorem snapsOf_cons_cthrow (m : String) (evs : List Event) :
    snapsOf (Event.configThrow m :: evs) = snapsOf evs := rfl

theorem applyUpd_ids (ts : List Task) (u : Upd) :
    ∀ ts', applyUpd ts u = some ts' → ts'.map Task.id = ts.map Task.id := by
  induction ts with
  | nil => intro ts' h; simp [applyUpd] at h
  | cons t rest ih =>
    intro ts' h
    by_cases he : t.id = u.id
    · simp only [applyUpd, if_pos he] at h
      cases h
      simp [setTask_id]
    · simp only [applyUpd, if_neg he] at h
      cases hr : applyUpd rest u with
      | none => rw [hr] at h; cases h
      | some r2 =>
        rw [hr] at h
        cases h
        simp [ih r2 hr]

theorem applyUpd_length (ts : List Task) (u : Upd) (ts' : List Task)
    (h : applyUpd ts u = some ts') : ts'.length = ts.length := by
  have := applyUpd_ids ts u ts' h
  have h1 : (ts'.map Task.id).length = (ts.map Task.id).length := by rw [this]
  simpa using h1

theorem applyUpd_none_of_not_mem (ts : List Task) (u : Upd)
    (h : u.id ∉ ts.map Task.id) : applyUpd ts u = none := by
  induction ts with
  | nil => rfl
  | cons t rest ih =>
    simp only [List.map_cons, List.mem_cons, not_or] at h
    have hne : ¬ t.id = u.id := fun he => h.1 he.symm
    simp only [applyUpd, if_neg hne, ih h.2]

theorem applyUpd_some_of_mem (ts : List Task) (u : Upd)
    (h : u.id ∈ ts.map Task.id) : ∃ ts', applyUpd ts u = some ts' := by
  induction ts with
  | nil => simp at h
  | cons t rest ih =>
    by_cases he : t.id = u.id
    · exact ⟨setTask t u :: rest, by simp [applyUpd, if_pos he]⟩
    · simp only [List.map_cons, List.mem_cons] at h
      have hm : u.id ∈ rest.map Task.id := by
        rcases h with h | h
        · exact absurd h.symm he
        · exact h
      obtain ⟨r2, hr⟩ := ih hm
      exact ⟨t :: r2, by simp [applyUpd, if_neg he, hr]⟩

theorem applyUpd_getElem?_ne (ts : List Task) (u : Upd) (ts' : List Task)
    (h : applyUpd ts u = some ts') (j : Nat) (v : Task)
    (hv : ts[j]? = some v) (hne : v.id ≠ u.id) : ts'[j]? = some v := by
  induction ts generalizing ts' j with
  | nil => simp [applyUpd] at h
  | cons t rest ih =>
    by_cases he : t.id = u.id
    · simp only [applyUpd, if_pos he] at h
      cases h
      cases j with
      | zero =>
        simp only [List.getElem?_cons_zero, Option.some.injEq] at hv
        subst hv
        exact absurd he hne
      | succ m => simpa using hv
    · simp only [applyUpd, if_neg he] at h
      cases hr : applyUpd rest u with
      | none => rw [hr] at h; cases h
      | some r2 =>
        rw [hr] at h
        cases h
        cases j with
        | zero => simpa using hv
        | succ m =>
          simp only [List.getElem?_cons_succ] at hv ⊢
          exact ih r2 hr m hv

theorem applyUpd_eq_set (ts : List Task) (u : Upd) (j : Nat) (v : Task)
    (hv : ts[j]? = some v) (hid : v.id = u.id)
    (hnd : (ts.map Task.id).Nodup) :
    applyUpd ts u = some (ts.set j (setTask v u)) := by
  induction ts generalizing j with
  | nil => simp at hv
  | cons t rest ih =>
    cases j with
    | zero =>
      simp only [List.getElem?_cons_zero, Option.some.injEq] at hv
      subst hv
      simp [applyUpd, if_pos hid]
    | succ m =>
      simp only [List.getElem?_cons_succ] at hv
      have hnd2 : t.id ∉ rest.map Task.id ∧ (rest.map Task.id).Nodup := by
        rw [List.map_cons, List.nodup_cons] at hnd
        exact hnd
      have hne : ¬ t.id = u.id := by
        intro he
        apply hnd2.1
        rw [he, ← hid]
        have hvmem : v ∈ rest := by
          obtain ⟨hlt, rfl⟩ := List.getElem?_eq_some_iff.mp hv
          exact rest.getElem_mem hlt
        exact List.mem_map_of_mem Task.id hvmem
      simp only [applyUpd, if_neg hne, ih m hv hnd2.2]
      rfl

theorem execMEvs_append (ts : List Task) (l1 l2 : List MEv) :
    execMEvs ts (l1 ++ l2)
      = ((execMEvs (execMEvs ts l1).1 l2).1,
         (execMEvs ts l1).2 ++ (execMEvs (execMEvs ts l1).1 l2).2) := by
  induction l1 generalizing ts with
  | nil => simp [execMEvs]
  | cons m rest ih =>
    cases m with
    | upd u =>
      cases hr : applyUpd ts u with
      | none => simp only [List.cons_append, execMEvs, hr]; exact ih ts
      | some ts2 => simp only [List.cons_append, execMEvs, hr, List.append_eq, ih ts2]
    | net i p => simp only [List.cons_append, execMEvs, List.append_eq, ih ts]
    | cthrow msg => simp only [List.cons_append, execMEvs, List.append_eq, ih ts]

theorem execMEvs_ids (ts : List Task) (l : List MEv) :
    (execMEvs ts l).1.map Task.id = ts.map Task.id := by
  induction l generalizing ts with
  | nil => rfl
  | cons m rest ih =>
    cases m with
    | upd u =>
      cases hr : applyUpd ts u with
      | none => simp only [execMEvs, hr]; exact ih ts
      | some ts2 =>
        simp only [execMEvs, hr]
        rw [ih ts2, applyUpd_ids ts u ts2 hr]
    | net i p => simp only [execMEvs]; exact ih ts
    | cthrow msg => simp only [execMEvs]; exact ih ts

theorem execMEvs_snaps_ids (ts : List Task) (l : List MEv) :
    ∀ s ∈ snapsOf (execMEvs ts l).2, s.map Task.id = ts.map Task.id := by
  induction l generalizing ts with
  | nil => intro s hs; simp [execMEvs, snapsOf] at hs
  | cons m rest ih =>
    intro s hs
    cases m with
    | upd u =>
      cases hr : applyUpd ts u with
      | none =>
        simp only [execMEvs, hr] at hs
        exact ih ts s hs
      | some ts2 =>
        simp only [execMEvs, hr, snapsOf_cons_emit] at hs
        rcases List.mem_cons.mp hs with h | h
        · subst h; exact applyUpd_ids ts u s hr
        · rw [ih ts2 s h, applyUpd_ids ts u ts2 hr]
    | net i p =>
      simp only [execMEvs, snapsOf_cons_net] at hs
      exact ih ts s hs
    | cthrow msg =>
      simp only [execMEvs, snapsOf_cons_cthrow] at hs
      exact ih ts s hs

theorem execMEvs_no_hit (ts : List Task) (l : List MEv) (j : Nat) (v : Task)
    (hv : ts[j]? = some v)
    (hnone : ∀ u, MEv.upd u ∈ l → u.id ≠ v.id) :
    (execMEvs ts l).1[j]? = some v
      ∧ ∀ s ∈ snapsOf (execMEvs ts l).2, s[j]? = some v := by
  induction l generalizing ts with
  | nil => exact ⟨hv, by intro s hs; simp [execMEvs, snapsOf] at hs⟩
  | cons m rest ih =>
    cases m with
    | upd u =>
      have hne : u.id ≠ v.id := hnone u (List.mem_cons_self _ _)
      have hrest : ∀ w, MEv.upd w ∈ rest → w.id ≠ v.id :=
        fun w hw => hnone w (List.mem_cons_of_mem _ hw)
      cases hr : applyUpd ts u with
      | none =>
        simp only [execMEvs, hr]
        exact ih ts hv hrest
      | some ts2 =>
        have hv2 : ts2[j]? = some v :=
          applyUpd_getElem?_ne ts u ts2 hr j v hv (fun he => hne he.symm)
        have hih := ih ts2 hv2 hrest
        refine ⟨by simpa [execMEvs, hr] using hih.1, ?_⟩
        intro s hs
        simp only [execMEvs, hr, snapsOf_cons_emit] at hs
        rcases List.mem_cons.mp hs with h | h
        · subst h; exact hv2
        · exact hih.2 s h
    | net i p =>
      have hrest : ∀ w, MEv.upd w ∈ rest → w.id ≠ v.id :=
        fun w hw => hnone w (List.mem_cons_of_mem _ hw)
      have hih := ih ts hv hrest
      refine ⟨by simpa [execMEvs] using hih.1, ?_⟩
      intro s hs
      simp only [execMEvs, snapsOf_cons_net] at hs
      exact hih.2 s hs
    | cthrow msg =>
      have hrest : ∀ w, MEv.upd w ∈ rest → w.id ≠ v.id :=
        fun w hw => hnone w (List.mem_cons_of_mem _ hw)
      have hih := ih ts hv hrest
      refine ⟨by simpa [execMEvs] using hih.1, ?_⟩
      intro s hs
      simp only [execMEvs, snapsOf_cons_cthrow] at hs
      exact hih.2 s hs

theorem execMEvs_snaps_count (ts : List Task) (l : List MEv)
    (hfound : ∀ u, MEv.upd u ∈ l → u.id ∈ ts.map Task.id) :
    (snapsOf (execMEvs ts l).2).length = (l.filter isUpd).length := by
  induction l generalizing ts with
  | nil => rfl
  | cons m rest ih =>
    cases m with
    | upd u =>
      obtain ⟨ts2, hr⟩ := applyUpd_some_of_mem ts u (hfound u (List.mem_cons_self _ _))
      have hrest : ∀ w, MEv.upd w ∈ rest → w.id ∈ ts2.map Task.id := by
        intro w hw
        rw [applyUpd_ids ts u ts2 hr]
        exact hfound w (List.mem_cons_of_mem _ hw)
      simp only [execMEvs, hr, snapsOf_cons_emit, List.filter_cons, isUpd, List.length_cons]
      rw [ih ts2 hrest]
      simp
    | net i p =>
      have hrest : ∀ w, MEv.upd w ∈ rest → w.id ∈ ts.map Task.id :=
        fun w hw => hfound w (List.mem_cons_of_mem _ hw)
      simp only [execMEvs, snapsOf_cons_net, List.filter_cons, isUpd]
      simpa using ih ts hrest
    | cthrow msg =>
      have hrest : ∀ w, MEv.upd w ∈ rest → w.id ∈ ts.map Task.id :=
        fun w hw => hfound w (List.mem_cons_of_mem _ hw)
      simp only [execMEvs, snapsOf_cons_cthrow, List.filter_cons, isUpd]
      simpa using ih ts hrest

theorem mkTask_id (config : AppConfig) (i : Nat) (p : Provider) :
    (mkTask config i p).id = mkId i p := rfl

theorem mkTask_status (config : AppConfig) (i : Nat) (p : Provider) :
    (mkTask config i p).status = TaskStatus.pending := rfl

theorem mkTask_error (config : AppConfig) (i : Nat) (p : Provider) :
    (mkTask config i p).error = none := rfl

theorem tasksFor_length (config : AppConfig) (n : Nat) :
    (tasksFor config n).length = n * config.providers.length := by
  induction n with
  | zero => simp [tasksFor]
  | succ m ih => simp [tasksFor, ih, Nat.succ_mul]

theorem tasksFor_getElem? (config : AppConfig) (n i k : Nat)
    (hi : i < n) (hk : k < config.providers.length) :
    (tasksFor config n)[i * config.providers.length + k]?
      = some (mkTask config i (config.providers[k])) := by
  induction n with
  | zero => omega
  | succ m ih =>
    by_cases h : i < m
    · have hlt : i * config.providers.length + k < (tasksFor config m).length := by
        rw [tasksFor_length]
        have h1 := Nat.mul_le_mul_right config.providers.length (show i + 1 ≤ m by omega)
        rw [Nat.succ_mul] at h1
        omega
      rw [tasksFor, List.getElem?_append, if_pos hlt]
      exact ih h
    · have hieq : i = m := by omega
      subst hieq
      have hge : ¬ (i * config.providers.length + k < (tasksFor config i).length) := by
        rw [tasksFor_length]
        omega
      rw [tasksFor, List.getElem?_append, if_neg hge, tasksFor_length]
      have hsub : i * config.providers.length + k - i * config.providers.length = k := by
        omega
      rw [hsub, List.getElem?_map, List.getElem?_eq_getElem hk]
      rfl

theorem tasksFor_mem (config : AppConfig) (n : Nat) :
    ∀ t ∈ tasksFor config n, ∃ i, i < n ∧ ∃ p ∈ config.providers, t = mkTask config i p := by
  induction n with
  | zero => simp [tasksFor]
  | succ m ih =>
    intro t ht
    rw [tasksFor, List.mem_append] at ht
    rcases ht with h | h
    · obtain ⟨i, hi, p, hp, he⟩ := ih t h
      exact ⟨i, by omega, p, hp, he⟩
    · obtain ⟨p, hp, he⟩ := List.mem_map.mp h
      exact ⟨m, by omega, p, hp, he.symm⟩

theorem tasksFor_mem_ids (config : AppConfig) (n : Nat) (s : String) :
    s ∈ (tasksFor config n).map Task.id
      ↔ ∃ i, i < n ∧ ∃ p ∈ config.providers, s = mkId i p := by
  constructor
  · intro h
    obtain ⟨t, ht, he⟩ := List.mem_map.mp h
    obtain ⟨i, hi, p, hp, rfl⟩ := tasksFor_mem config n t ht
    exact ⟨i, hi, p, hp, he.symm⟩
  · rintro ⟨i, hi, p, hp, rfl⟩
    obtain ⟨k, hk, rfl⟩ := List.mem_iff_getElem.mp hp
    have := tasksFor_getElem? config n i k hi hk
    have hmem : mkTask config i (config.providers[k]) ∈ tasksFor config n := by
      obtain ⟨hlt, he⟩ := List.getElem?_eq_some_iff.mp this
      rw [← he]
      exact (tasksFor config n).getElem_mem hlt
    exact List.mem_map.mpr ⟨_, hmem, rfl⟩

theorem tasksFor_ids_nodup (config : AppConfig) (hnd : config.providers.Nodup) (n : Nat) :
    ((tasksFor config n).map Task.id).Nodup := by
  induction n with
  | zero => simp [tasksFor]
  | succ m ih =>
    rw [tasksFor, List.map_append, List.nodup_append]
    refine ⟨ih, ?_, ?_⟩
    · rw [List.map_map]
      have : (Task.id ∘ mkTask config m) = mkId m := by
        funext p; rfl
      rw [this]
      exact List.Nodup.map_on (fun x _ y _ he => (mkId_inj m m x y he).2) hnd
    · intro s hs hs2
      obtain ⟨i, hi, p, hp, rfl⟩ := (tasksFor_mem_ids config m s).mp hs
      rw [List.map_map] at hs2
      obtain ⟨q, hq, he⟩ := List.mem_map.mp hs2
      have := mkId_inj m i q p (by simpa using he)
      omega

theorem buildTasks_length (config : AppConfig) :
    (buildTasks config).length = config.prompts.length * config.providers.length :=
  tasksFor_length config config.prompts.length

theorem buildTasks_pending (config : AppConfig) :
    ∀ t ∈ buildTasks config, t.status = TaskStatus.pending := by
  intro t ht
  obtain ⟨i, _, p, _, rfl⟩ := tasksFor_mem config config.prompts.length t ht
  rfl

theorem settleOrder_perm (n : Nat) (l : List Nat) :
    List.Perm (settleOrder n l) (List.range n) := by
  unfold settleOrder
  split
  next h =>
    have hsub : List.Subperm (List.range n) l :=
      List.subperm_of_subset (List.nodup_range n) (fun a ha => h.2 a ha)
    exact (hsub.perm_of_length_le (by rw [h.1, List.length_range])).symm
  next h => exact List.Perm.refl _

theorem settleOrder_mem (n : Nat) (l : List Nat) (k : Nat) :
    k ∈ settleOrder n l ↔ k < n := by
  rw [(settleOrder_perm n l).mem_iff, List.mem_range]

theorem settleOrder_nodup (n : Nat) (l : List Nat) : (settleOrder n l).Nodup :=
  ((settleOrder_perm n l).symm).nodup (List.nodup_range n)

theorem settleOrder_length (n : Nat) (l : List Nat) : (settleOrder n l).length = n := by
  rw [(settleOrder_perm n l).length_eq, List.length_range]

theorem getD_of_lt (l : List Provider) (k : Nat) (d : Provider) (h : k < l.length) :
    l.getD k d = l[k] := by
  rw [List.getD_eq_getElem?_getD, List.getElem?_eq_getElem h]
  rfl

theorem settleUpd_id (config : AppConfig) (oracle : Oracle) (i k : Nat) :
    (settleUpd config oracle i k).id
      = mkId i (config.providers.getD k Provider.gemini) := by
  simp only [settleUpd]
  split <;> simp [List.getD_eq_getElem?_getD]

theorem upd_mem_startMEvs (clients : LlmClients) (config : AppConfig) (i : Nat) (u : Upd)
    (h : MEv.upd u ∈ startMEvs clients config i) :
    ∃ p ∈ config.providers,
      u = { id := mkId i p, status := TaskStatus.in_progress, errMsg := none } := by
  simp only [startMEvs, List.mem_flatMap] at h
  obtain ⟨p, hp, hm⟩ := h
  rcases List.mem_cons.mp hm with he | he
  · refine ⟨p, hp, ?_⟩
    injection he
  · cases hc : checkProvider clients config p <;> rw [hc] at he <;> simp at he

theorem upd_mem_settleMEvs (config : AppConfig) (oracle : Oracle) (sched : Schedule)
    (i : Nat) (u : Upd) (h : MEv.upd u ∈ settleMEvs config oracle sched i) :
    ∃ k, k < config.providers.length ∧ u = settleUpd config oracle i k := by
  simp only [settleMEvs, List.mem_map] at h
  obtain ⟨k, hk, he⟩ := h
  refine ⟨k, (settleOrder_mem _ _ _).mp hk, ?_⟩
  injection he.symm

theorem upd_mem_promptMEvs (clients : LlmClients) (config : AppConfig) (oracle : Oracle)
    (sched : Schedule) (i : Nat) (u : Upd)
    (h : MEv.upd u ∈ startMEvs clients config i ++ settleMEvs config oracle sched i) :
    ∃ p, u.id = mkId i p := by
  rcases List.mem_append.mp h with h | h
  · obtain ⟨p, _, rfl⟩ := upd_mem_startMEvs clients config i u h
    exact ⟨p, rfl⟩
  · obtain ⟨k, _, rfl⟩ := upd_mem_settleMEvs config oracle sched i u h
    exact ⟨_, settleUpd_id config oracle i k⟩

theorem statusAt_of_getElem? (s : List Task) (j : Nat) (v : Task) (h : s[j]? = some v) :
    statusAt j s = v.status := by
  unfold statusAt
  rw [List.getD_eq_getElem?_getD, h]
  rfl

theorem map_statusAt_replicate (snaps : List (List Task)) (j : Nat) (v : Task)
    (h : ∀ s ∈ snaps, s[j]? = some v) :
    snaps.map (statusAt j) = List.replicate snaps.length v.status := by
  have hall : ∀ x ∈ snaps.map (statusAt j), x = v.status := by
    intro x hx
    obtain ⟨s, hs, rfl⟩ := List.mem_map.mp hx
    exact statusAt_of_getElem? s j v (h s hs)
  have h2 := List.eq_replicate_of_mem hall
  simpa using h2

theorem exec_two_hits (ts0 : List Task) (A B C : List MEv) (uIP uT : Upd)
    (j : Nat) (v : Task)
    (hv : ts0[j]? = some v) (hnd : (ts0.map Task.id).Nodup)
    (hip : uIP.id = v.id) (ht : uT.id = v.id)
    (hA : ∀ u, MEv.upd u ∈ A → u.id ≠ v.id)
    (hB : ∀ u, MEv.upd u ∈ B → u.id ≠ v.id)
    (hC : ∀ u, MEv.upd u ∈ C → u.id ≠ v.id) :
    (execMEvs ts0 (A ++ MEv.upd uIP :: (B ++ MEv.upd uT :: C))).1[j]?
        = some (setTask (setTask v uIP) uT)
    ∧ ∃ na nb nc : Nat,
        (snapsOf (execMEvs ts0 (A ++ MEv.upd uIP :: (B ++ MEv.upd uT :: C))).2).map (statusAt j)
          = List.replicate na v.status ++ List.replicate (nb + 1) uIP.status
              ++ List.replicate (nc + 1) uT.status := by
  obtain ⟨hAfin, hAsnaps⟩ := execMEvs_no_hit ts0 A j v hv hA
  have hAids : (execMEvs ts0 A).1.map Task.id = ts0.map Task.id := execMEvs_ids ts0 A
  have hAnd : ((execMEvs ts0 A).1.map Task.id).Nodup := by rw [hAids]; exact hnd
  have hr1 : applyUpd (execMEvs ts0 A).1 uIP
      = some ((execMEvs ts0 A).1.set j (setTask v uIP)) :=
    applyUpd_eq_set _ uIP j v hAfin hip.symm hAnd
  have hjlt : j < (execMEvs ts0 A).1.length := (List.getElem?_eq_some_iff.mp hAfin).1
  have hv1 : ((execMEvs ts0 A).1.set j (setTask v uIP))[j]? = some (setTask v uIP) := by
    simp [List.getElem?_set, hjlt]
  obtain ⟨hBfin, hBsnaps⟩ := execMEvs_no_hit _ B j (setTask v uIP) hv1
    (by intro u hu; rw [setTask_id]; exact hB u hu)
  have hBids := execMEvs_ids ((execMEvs ts0 A).1.set j (setTask v uIP)) B
  have hBnd : ((execMEvs ((execMEvs ts0 A).1.set j (setTask v uIP)) B).1.map Task.id).Nodup := by
    rw [hBids, applyUpd_ids _ uIP _ hr1, hAids]
    exact hnd
  have hr2 : applyUpd (execMEvs ((execMEvs ts0 A).1.set j (setTask v uIP)) B).1 uT
      = some ((execMEvs ((execMEvs ts0 A).1.set j (setTask v uIP)) B).1.set j
          (setTask (setTask v uIP) uT)) :=
    applyUpd_eq_set _ uT j (setTask v uIP) hBfin (by rw [setTask_id]; exact ht.symm) hBnd
  have hjlt2 : j < (execMEvs ((execMEvs ts0 A).1.set j (setTask v uIP)) B).1.length :=
    (List.getElem?_eq_some_iff.mp hBfin).1
  have hv2 : ((execMEvs ((execMEvs ts0 A).1.set j (setTask v uIP)) B).1.set j
      (setTask (setTask v uIP) uT))[j]? = some (setTask (setTask v uIP) uT) := by
    simp [List.getElem?_set, hjlt2]
  obtain ⟨hCfin, hCsnaps⟩ := execMEvs_no_hit _ C j (setTask (setTask v uIP) uT) hv2
    (by intro u hu; rw [setTask_id, setTask_id]; exact hC u hu)
  rw [execMEvs_append ts0 A]
  simp only [execMEvs, hr1]
  rw [execMEvs_append _ B]
  simp only [execMEvs, hr2]
  constructor
  · exact hCfin
  · refine ⟨(snapsOf (execMEvs ts0 A).2).length,
      (snapsOf (execMEvs ((execMEvs ts0 A).1.set j (setTask v uIP)) B).2).length,
      (snapsOf (execMEvs ((execMEvs ((execMEvs ts0 A).1.set j (setTask v uIP)) B).1.set j
        (setTask (setTask v uIP) uT)) C).2).length, ?_⟩
    rw [snapsOf_append, snapsOf_cons_emit, snapsOf_append, snapsOf_cons_emit]
    rw [List.map_append, List.map_cons, List.map_append, List.map_cons]
    rw [map_statusAt_replicate _ j v hAsnaps]
    rw [map_statusAt_replicate _ j (setTask v uIP) hBsnaps]
    rw [map_statusAt_replicate _ j (setTask (setTask v uIP) uT) hCsnaps]
    rw [statusAt_of_getElem? _ j (setTask v uIP) hv1]
    rw [statusAt_of_getElem? _ j (setTask (setTask v uIP) uT) hv2]
    simp [setTask_status, List.replicate_succ, List.append_assoc, Nat.add_comm]

theorem range_split (P i0 : Nat) (hi : i0 < P) :
    ∃ I J : List Nat, List.range P = I ++ i0 :: J
      ∧ (∀ i ∈ I, i ≠ i0) ∧ (∀ i ∈ J, i ≠ i0) := by
  have hmem : i0 ∈ List.range P := by simpa using hi
  obtain ⟨I, J, hIJ⟩ := List.append_of_mem hmem
  have hnd := List.nodup_range P
  rw [hIJ, List.nodup_append] at hnd
  refine ⟨I, J, hIJ, ?_, ?_⟩
  · intro i hiI he
    subst he
    exact hnd.2.2 hiI (List.mem_cons_self _ _)
  · intro i hiJ he
    subst he
    exact (List.nodup_cons.mp hnd.2.1).1 hiJ

theorem providers_split (config : AppConfig) (k0 : Nat) (hk : k0 < config.providers.length)
    (hnd : config.providers.Nodup) :
    config.providers
        = config.providers.take k0 ++ config.providers[k0] :: config.providers.drop (k0 + 1)
      ∧ config.providers[k0] ∉ config.providers.take k0
      ∧ config.providers[k0] ∉ config.providers.drop (k0 + 1) := by
  have hsplit : config.providers
      = config.providers.take k0 ++ config.providers[k0] :: config.providers.drop (k0 + 1) := by
    rw [← List.drop_eq_getElem_cons hk, List.take_append_drop]
  have hnd2 := hnd
  rw [hsplit, List.nodup_append] at hnd2
  refine ⟨hsplit, ?_, (List.nodup_cons.mp hnd2.2.1).1⟩
  intro hmem
  exact hnd2.2.2 hmem (List.mem_cons_self _ _)

theorem upd_mem_startFlat (clients : LlmClients) (config : AppConfig) (i0 : Nat)
    (L : List Provider) (u : Upd)
    (h : MEv.upd u ∈ L.flatMap fun p =>
      MEv.upd { id := mkId i0 p, status := TaskStatus.in_progress, errMsg := none } ::
        (match checkProvider clients config p with
         | some msg => [MEv.cthrow msg]
         | none => [MEv.net i0 p])) :
    ∃ p ∈ L, u.id = mkId i0 p := by
  simp only [List.mem_flatMap] at h
  obtain ⟨p, hp, hm⟩ := h
  rcases List.mem_cons.mp hm with he | he
  · refine ⟨p, hp, ?_⟩
    have : u = { id := mkId i0 p, status := TaskStatus.in_progress, errMsg := none } := by
      injection he
    rw [this]
  · cases hc : checkProvider clients config p <;> rw [hc] at he <;> simp at he

theorem startMEvs_split (clients : LlmClients) (config : AppConfig) (i0 k0 : Nat)
    (hk : k0 < config.providers.length)
    (hcheck : checkProvider clients config config.providers[k0] = none) :
    startMEvs clients config i0
      = ((config.providers.take k0).flatMap fun p =>
            MEv.upd { id := mkId i0 p, status := TaskStatus.in_progress, errMsg := none } ::
              (match checkProvider clients config p with
               | some msg => [MEv.cthrow msg]
               | none => [MEv.net i0 p]))
        ++ MEv.upd { id := mkId i0 config.providers[k0],
                     status := TaskStatus.in_progress, errMsg := none }
          :: MEv.net i0 config.providers[k0]
          :: ((config.providers.drop (k0 + 1)).flatMap fun p =>
            MEv.upd { id := mkId i0 p, status := TaskStatus.in_progress, errMsg := none } ::
              (match checkProvider clients config p with
               | some msg => [MEv.cthrow msg]
               | none => [MEv.net i0 p])) := by
  conv_lhs =>
    rw [startMEvs, show config.providers
        = config.providers.take k0 ++ config.providers[k0] :: config.providers.drop (k0 + 1) by
      rw [← List.drop_eq_getElem_cons hk, List.take_append_drop]]
  rw [List.flatMap_append, List.flatMap_cons, hcheck]
  simp

theorem settleMEvs_split (config : AppConfig) (oracle : Oracle) (sched : Schedule)
    (i0 k0 : Nat) (hk : k0 < config.providers.length) :
    ∃ Sa Sb : List Nat,
      settleMEvs config oracle sched i0
        = Sa.map (fun k => MEv.upd (settleUpd config oracle i0 k))
          ++ MEv.upd (settleUpd config oracle i0 k0)
            :: Sb.map (fun k => MEv.upd (settleUpd config oracle i0 k))
      ∧ (∀ k ∈ Sa, k < config.providers.length ∧ k ≠ k0)
      ∧ (∀ k ∈ Sb, k < config.providers.length ∧ k ≠ k0) := by
  have hmem : k0 ∈ settleOrder config.providers.length (sched i0) :=
    (settleOrder_mem _ _ _).mpr hk
  obtain ⟨Sa, Sb, hS⟩ := List.append_of_mem hmem
  have hnd := settleOrder_nodup config.providers.length (sched i0)
  rw [hS, List.nodup_append] at hnd
  refine ⟨Sa, Sb, ?_, ?_, ?_⟩
  · rw [settleMEvs, hS, List.map_append, List.map_cons]
  · intro k hkSa
    constructor
    · have : k ∈ settleOrder config.providers.length (sched i0) := by
        rw [hS]; exact List.mem_append.mpr (Or.inl hkSa)
      exact (settleOrder_mem _ _ _).mp this
    · intro he
      subst he
      exact hnd.2.2 hkSa (List.mem_cons_self _ _)
  · intro k hkSb
    constructor
    · have : k ∈ settleOrder config.providers.length (sched i0) := by
        rw [hS]
        exact List.mem_append.mpr (Or.inr (List.mem_cons_of_mem _ hkSb))
      exact (settleOrder_mem _ _ _).mp this
    · intro he
      subst he
      exact (List.nodup_cons.mp hnd.2.1).1 hkSb

theorem runMEvs_decomp (clients : LlmClients) (config : AppConfig) (oracle : Oracle)
    (sched : Schedule) (i0 k0 : Nat)
    (hi : i0 < config.prompts.length) (hk : k0 < config.providers.length)
    (hvalid : firstThrow clients config = none)
    (hnd : config.providers.Nodup) :
    ∃ A B C,
      runMEvs clients config oracle sched
        = A ++ MEv.upd { id := mkId i0 config.providers[k0],
                         status := TaskStatus.in_progress, errMsg := none }
            :: (B ++ MEv.upd (settleUpd config oracle i0 k0) :: C)
      ∧ (∀ u, MEv.upd u ∈ A → u.id ≠ mkId i0 config.providers[k0])
      ∧ (∀ u, MEv.upd u ∈ B → u.id ≠ mkId i0 config.providers[k0])
      ∧ (∀ u, MEv.upd u ∈ C → u.id ≠ mkId i0 config.providers[k0]) := by
  obtain ⟨I, J, hIJ, hInot, hJnot⟩ := range_split config.prompts.length i0 hi
  have hcheck : checkProvider clients config config.providers[k0] = none := by
    rw [firstThrow] at hvalid
    exact List.findSome?_eq_none_iff.mp hvalid _ (config.providers.getElem_mem hk)
  obtain ⟨hProvSplit, hp0T, hp0D⟩ := providers_split config k0 hk hnd
  obtain ⟨Sa, Sb, hS, hSa, hSb⟩ := settleMEvs_split config oracle sched i0 k0 hk
  refine ⟨(I.flatMap fun i => startMEvs clients config i ++ settleMEvs config oracle sched i)
      ++ ((config.providers.take k0).flatMap fun p =>
            MEv.upd { id := mkId i0 p, status := TaskStatus.in_progress, errMsg := none } ::
              (match checkProvider clients config p with
               | some msg => [MEv.cthrow msg]
               | none => [MEv.net i0 p])),
    MEv.net i0 config.providers[k0]
      :: (((config.providers.drop (k0 + 1)).flatMap fun p =>
            MEv.upd { id := mkId i0 p, status := TaskStatus.in_progress, errMsg := none } ::
              (match checkProvider clients config p with
               | some msg => [MEv.cthrow msg]
               | none => [MEv.net i0 p]))
          ++ Sa.map fun k => MEv.upd (settleUpd config oracle i0 k)),
    (Sb.map fun k => MEv.upd (settleUpd config oracle i0 k))
      ++ (J.flatMap fun i => startMEvs clients config i ++ settleMEvs config oracle sched i),
    ?_, ?_, ?_, ?_⟩
  · rw [runMEvs, hIJ, List.flatMap_append, List.flatMap_cons]
    rw [startMEvs_split clients config i0 k0 hk hcheck, hS]
    simp [List.append_assoc]
  · intro u hu
    rcases List.mem_append.mp hu with h | h
    · obtain ⟨i, hiI, hin⟩ := List.mem_flatMap.mp h
      obtain ⟨p, hpid⟩ := upd_mem_promptMEvs clients config oracle sched i u hin
      rw [hpid]
      intro he
      exact hInot i hiI (mkId_inj i i0 p _ he).1
    · obtain ⟨p, hpT, hpid⟩ := upd_mem_startFlat clients config i0 _ u h
      rw [hpid]
      intro he
      exact hp0T ((mkId_inj i0 i0 p _ he).2 ▸ hpT)
  · intro u hu
    rcases List.mem_cons.mp hu with h | h
    · cases h
    rcases List.mem_append.mp h with h2 | h2
    · obtain ⟨p, hpD, hpid⟩ := upd_mem_startFlat clients config i0 _ u h2
      rw [hpid]
      intro he
      exact hp0D ((mkId_inj i0 i0 p _ he).2 ▸ hpD)
    · obtain ⟨k, hkSa, he⟩ := List.mem_map.mp h2
      have hu2 : u = settleUpd config oracle i0 k := by injection he.symm
      rw [hu2, settleUpd_id, getD_of_lt _ _ _ (hSa k hkSa).1]
      intro he2
      have := (mkId_inj i0 i0 _ _ he2).2
      exact (hSa k hkSa).2 ((hnd.getElem_inj_iff).mp this)
  · intro u hu
    rcases List.mem_append.mp hu with h | h
    · obtain ⟨k, hkSb, he⟩ := List.mem_map.mp h
      have hu2 : u = settleUpd config oracle i0 k := by injection he.symm
      rw [hu2, settleUpd_id, getD_of_lt _ _ _ (hSb k hkSb).1]
      intro he2
      have := (mkId_inj i0 i0 _ _ he2).2
      exact (hSb k hkSb).2 ((hnd.getElem_inj_iff).mp this)
    · obtain ⟨i, hiJ, hin⟩ := List.mem_flatMap.mp h
      obtain ⟨p, hpid⟩ := upd_mem_promptMEvs clients config oracle sched i u hin
      rw [hpid]
      intro he
      exact hJnot i hiJ (mkId_inj i i0 p _ he).1

theorem runResults_length (config : AppConfig) (oracle : Oracle) :
    (runResults config oracle).length = config.prompts.length := by
  simp [runResults]

theorem run_ok_eq (config : AppConfig) (oracle : Oracle) (sched : Schedule)
    (res : List AnalysisResult)
    (hok : (runAnalysisModel config oracle sched).result = Except.ok res) :
    res = runResults config oracle := by
  unfold runAnalysisModel at hok
  split at hok
  · simp at hok
  · split at hok
    · split at hok
      · simp only [Except.ok.injEq] at hok
        rename_i hlen
        rw [← hok, runResults, hlen]
        rfl
      · simp at hok
    · simp only [Except.ok.injEq] at hok
      exact hok.symm

theorem run_result_sched_indep (config : AppConfig) (oracle : Oracle) (s1 s2 : Schedule) :
    (runAnalysisModel config oracle s1).result = (runAnalysisModel config oracle s2).result := by
  unfold runAnalysisModel
  split
  · rfl
  · split
    · split <;> rfl
    · rfl

theorem runProviderFor_provider (p : Provider) (config : AppConfig) (net : NetBehavior) :
    (runProviderFor p config net).provider = p := by
  cases p <;>
    simp only [runProviderFor, runGeminiAnalysisForPrompt, runOpenAIAnalysisForPrompt,
      runPerplexityAnalysisForPrompt, runCopilotAnalysisForPrompt] <;>
    (repeat' split) <;> rfl

theorem runProviderFor_shape (p : Provider) (config : AppConfig) (net : NetBehavior) :
    (∃ m, runProviderFor p config net = errorResponse p m)
    ∨ (runProviderFor p config net).error = none := by
  cases p <;>
    simp only [runProviderFor, runGeminiAnalysisForPrompt, runOpenAIAnalysisForPrompt,
      runPerplexityAnalysisForPrompt, runCopilotAnalysisForPrompt] <;>
    (repeat' split) <;> first
      | exact Or.inl ⟨_, rfl⟩
      | exact Or.inr rfl

/-- The error-shaped response the orchestrator's own catch would build when a
mapper's awaited call throws (src/services/geminiService.ts line 273). -/
def orchestratorFallback (p : Provider) (msg : String) : ProviderResponse :=
  { provider := p, response := "", brandAnalyses := [], additionalAnswers := [],
    error := some msg }

/-- Whether the selected provider has a JS-truthy credential set and a
JS-truthy model identifier, the condition its dispatch arm effectively
requires. -/
def credsOk (config : AppConfig) : Provider → Bool
  | Provider.gemini =>
    jsTruthy config.apiKeys.gemini && jsTruthy (config.models Provider.gemini)
  | Provider.openai =>
    jsTruthy config.apiKeys.openai && jsTruthy (config.models Provider.openai)
  | Provider.perplexity =>
    jsTruthy config.apiKeys.perplexity && jsTruthy (config.models Provider.perplexity)
  | Provider.copilot =>
    jsTruthy config.apiKeys.copilotKey && jsTruthy config.apiKeys.copilotEndpoint
      && jsTruthy (config.models Provider.copilot)

theorem jsTruthy_none : jsTruthy none = false := rfl

theorem check_none_iff (config : AppConfig) (clients : LlmClients)
    (hinit : initializeClients config = Except.ok clients) (p : Provider)
    (hp : p ∈ config.providers) :
    (checkProvider clients config p = none ↔ credsOk config p = true) := by
  have hcont : config.providers.contains p = true := List.elem_eq_true_of_mem hp
  unfold initializeClients at hinit
  by_cases hg : (config.providers.contains Provider.gemini
      && !(jsTruthy config.apiKeys.gemini)) = true
  · rw [if_pos hg] at hinit; cases hinit
  · rw [if_neg hg] at hinit
    simp only [Except.ok.injEq] at hinit
    subst hinit
    cases p with
    | gemini =>
      have hkey : jsTruthy config.apiKeys.gemini = true := by
        cases h : jsTruthy config.apiKeys.gemini with
        | false => exact absurd (by rw [hcont, h]; rfl) hg
        | true => rfl
      have hSome : config.apiKeys.gemini.isSome = true := by
        cases hk : config.apiKeys.gemini with
        | none => rw [hk] at hkey; simp [jsTruthy] at hkey
        | some k => rfl
      cases hm : jsTruthy (config.models Provider.gemini) <;>
        simp [checkProvider, credsOk, hcont, hp, hm, hSome, hkey,
          Option.ne_none_iff_isSome]
    | openai =>
      cases hkey : jsTruthy config.apiKeys.openai with
      | true =>
        cases hm : jsTruthy (config.models Provider.openai) <;>
          simp [checkProvider, credsOk, hcont, hp, hm, hkey]
      | false =>
        simp [checkProvider, credsOk, hcont, hp, hkey, jsTruthy_none]
    | perplexity =>
      cases hkey : jsTruthy config.apiKeys.perplexity with
      | true =>
        cases hm : jsTruthy (config.models Provider.perplexity) <;>
          simp [checkProvider, credsOk, hcont, hp, hm, hkey]
      | false =>
        simp [checkProvider, credsOk, hcont, hp, hkey, jsTruthy_none]
    | copilot =>
      cases hk1 : jsTruthy config.apiKeys.copilotKey with
      | false => simp [checkProvider, credsOk, hcont, hp, hk1]
      | true =>
        cases hk2 : jsTruthy config.apiKeys.copilotEndpoint with
        | false => simp [checkProvider, credsOk, hcont, hp, hk1, hk2]
        | true =>
          obtain ⟨k, hck⟩ : ∃ k, config.apiKeys.copilotKey = some k := by
            cases h : config.apiKeys.copilotKey with
            | none => rw [h] at hk1; simp [jsTruthy] at hk1
            | some k => exact ⟨k, rfl⟩
          obtain ⟨e, hce⟩ : ∃ e, config.apiKeys.copilotEndpoint = some e := by
            cases h : config.apiKeys.copilotEndpoint with
            | none => rw [h] at hk2; simp [jsTruthy] at hk2
            | some e => exact ⟨e, rfl⟩
          cases hm : jsTruthy (config.models Provider.copilot) <;>
            simp [checkProvider, credsOk, hcont, hp, hm, hk1, hk2, hck, hce]
          exact ⟨by rw [← hck]; exact hk1, by rw [← hce]; exact hk2⟩

theorem upd_mem_promptMEvs_mem (clients : LlmClients) (config : AppConfig) (oracle : Oracle)
    (sched : Schedule) (i : Nat) (u : Upd)
    (h : MEv.upd u ∈ startMEvs clients config i ++ settleMEvs config oracle sched i) :
    ∃ p ∈ config.providers, u.id = mkId i p := by
  rcases List.mem_append.mp h with h | h
  · obtain ⟨p, hp, rfl⟩ := upd_mem_startMEvs clients config i u h
    exact ⟨p, hp, rfl⟩
  · obtain ⟨k, hk, rfl⟩ := upd_mem_settleMEvs config oracle sched i u h
    refine ⟨config.providers.getD k Provider.gemini, ?_, settleUpd_id config oracle i k⟩
    rw [getD_of_lt _ _ _ hk]
    exact config.providers.getElem_mem hk

theorem runMEvs_found (clients : LlmClients) (config : AppConfig) (oracle : Oracle)
    (sched : Schedule) :
    ∀ u, MEv.upd u ∈ runMEvs clients config oracle sched →
      u.id ∈ (buildTasks config).map Task.id := by
  intro u hu
  rw [runMEvs] at hu
  obtain ⟨i, hiI, hin⟩ := List.mem_flatMap.mp hu
  obtain ⟨p, hp, hid⟩ := upd_mem_promptMEvs_mem clients config oracle sched i u hin
  rw [buildTasks, tasksFor_mem_ids]
  exact ⟨i, List.mem_range.mp hiI, p, hp, hid⟩

theorem startMEvs_upd_count (clients : LlmClients) (config : AppConfig) (i : Nat) :
    ((startMEvs clients config i).filter isUpd).length = config.providers.length := by
  rw [startMEvs]
  induction config.providers with
  | nil => rfl
  | cons p rest ih =>
    rw [List.flatMap_cons, List.filter_append, List.length_append, ih]
    cases hc : checkProvider clients config p <;>
      simp [hc, isUpd, List.filter_cons] <;> omega

theorem settleMEvs_upd_count (config : AppConfig) (oracle : Oracle) (sched : Schedule)
    (i : Nat) :
    ((settleMEvs config oracle sched i).filter isUpd).length = config.providers.length := by
  rw [settleMEvs]
  have : ∀ L : List Nat,
      ((L.map fun k => MEv.upd (settleUpd config oracle i k)).filter isUpd).length
        = L.length := by
    intro L
    induction L with
    | nil => rfl
    | cons k rest ih => simp [List.filter_cons, isUpd, ih]
  rw [this, settleOrder_length]

theorem runMEvs_upd_count (clients : LlmClients) (config : AppConfig) (oracle : Oracle)
    (sched : Schedule) :
    ((runMEvs clients config oracle sched).filter isUpd).length
      = config.prompts.length * (2 * config.providers.length) := by
  rw [runMEvs]
  have : ∀ I : List Nat,
      (((I.flatMap fun i => startMEvs clients config i ++ settleMEvs config oracle sched i)
        ).filter isUpd).length = I.length * (2 * config.providers.length) := by
    intro I
    induction I with
    | nil => simp
    | cons i rest ih =>
      rw [List.flatMap_cons, List.filter_append, List.length_append, ih,
        List.filter_append, List.length_append, startMEvs_upd_count, settleMEvs_upd_count]
      simp only [List.length_cons]
      ring
  rw [this, List.length_range]

theorem settleUpd_status (config : AppConfig) (oracle : Oracle) (i k : Nat) :
    (settleUpd config oracle i k).status = TaskStatus.completed
    ∨ (settleUpd config oracle i k).status = TaskStatus.error := by
  simp only [settleUpd]
  split
  · exact Or.inr rfl
  · exact Or.inl rfl

/-- The references held by the array `[...tasks]` emitted to `onProgress`:
the spread copies the array, so element `j` of the emitted array is the very
task object living at store position `j`. -/
def emitRefs (s : List Task) : List Nat := List.range s.length

/-- Dereference a list of store positions in a (possibly later) store state:
what a consumer reading a previously emitted array would observe after
further in-place mutations. -/
def viewRefs (store : List Task) (refs : List Nat) : List Task :=
  refs.filterMap fun j => store[j]?

theorem viewRefs_range (l : List Task) : viewRefs l (List.range l.length) = l := by
  induction l using List.reverseRecOn with
  | nil => rfl
  | append_singleton xs x ih =>
    rw [viewRefs, List.length_append, List.length_cons, List.length_nil, List.range_succ,
      List.filterMap_append]
    have h1 : (List.range xs.length).filterMap (fun j => (xs ++ [x])[j]?)
        = (List.range xs.length).filterMap (fun j => xs[j]?) := by
      apply List.filterMap_congr
      intro j hj
      rw [List.getElem?_append_left (by simpa using hj)]
    rw [h1]
    have h2 : (xs ++ [x])[xs.length]? = some x := by
      simp
    have h3 : ([xs.length].filterMap fun j => (xs ++ [x])[j]?) = [x] := by
      simp only [List.filterMap_cons, h2]
      rfl
    rw [h3, ← viewRefs, ih]

theorem firstThrow_none_iff (config : AppConfig) (clients : LlmClients)
    (hinit : initializeClients config = Except.ok clients) :
    (firstThrow clients config = none
      ↔ ∀ p ∈ config.providers, credsOk config p = true) := by
  rw [firstThrow, List.findSome?_eq_none_iff]
  constructor
  · intro h p hp
    exact (check_none_iff config clients hinit p hp).mp (h p hp)
  · intro h p hp
    exact (check_none_iff config clients hinit p hp).mpr (h p hp)

theorem run_valid_shape (config : AppConfig) (oracle : Oracle) (sched : Schedule)
    (clients : LlmClients)
    (hinit : initializeClients config = Except.ok clients)
    (hvalid : firstThrow clients config = none) :
    runAnalysisModel config oracle sched
      = { result := Except.ok (runResults config oracle)
          events := Event.emit (buildTasks config)
            :: (execMEvs (buildTasks config) (runMEvs clients config oracle sched)).2
          finalTasks :=
            (execMEvs (buildTasks config) (runMEvs clients config oracle sched)).1 } := by
  unfold runAnalysisModel
  simp only [hinit, hvalid]

theorem run_task_character (config : AppConfig) (oracle : Oracle) (sched : Schedule)
    (clients : LlmClients)
    (hvalid : firstThrow clients config = none)
    (hnd : config.providers.Nodup)
    (i0 k0 : Nat) (hi : i0 < config.prompts.length) (hk : k0 < config.providers.length) :
    (execMEvs (buildTasks config)
        (runMEvs clients config oracle sched)).1[i0 * config.providers.length + k0]?
        = some (setTask (setTask (mkTask config i0 config.providers[k0])
            { id := mkId i0 config.providers[k0], status := TaskStatus.in_progress,
              errMsg := none }) (settleUpd config oracle i0 k0))
    ∧ ∃ na nb nc : Nat,
        (snapsOf (execMEvs (buildTasks config) (runMEvs clients config oracle sched)).2).map
            (statusAt (i0 * config.providers.length + k0))
          = List.replicate na TaskStatus.pending
            ++ List.replicate (nb + 1) TaskStatus.in_progress
            ++ List.replicate (nc + 1) (settleUpd config oracle i0 k0).status := by
  obtain ⟨A, B, C, hEq, hA, hB, hC⟩ :=
    runMEvs_decomp clients config oracle sched i0 k0 hi hk hvalid hnd
  have hv : (buildTasks config)[i0 * config.providers.length + k0]?
      = some (mkTask config i0 config.providers[k0]) :=
    tasksFor_getElem? config config.prompts.length i0 k0 hi hk
  have hndids : ((buildTasks config).map Task.id).Nodup := tasksFor_ids_nodup config hnd _
  have h2 := exec_two_hits (buildTasks config) A B C
    { id := mkId i0 config.providers[k0], status := TaskStatus.in_progress, errMsg := none }
    (settleUpd config oracle i0 k0)
    (i0 * config.providers.length + k0) (mkTask config i0 config.providers[k0])
    hv hndids (by rw [mkTask_id])
    (by rw [settleUpd_id, getD_of_lt _ _ _ hk, mkTask_id])
    (by intro u hu; rw [mkTask_id]; exact hA u hu)
    (by intro u hu; rw [mkTask_id]; exact hB u hu)
    (by intro u hu; rw [mkTask_id]; exact hC u hu)
  rw [hEq]
  refine ⟨h2.1, ?_⟩
  obtain ⟨na, nb, nc, hmap⟩ := h2.2
  exact ⟨na, nb, nc, by rw [hmap, mkTask_status]⟩

/-- Minimal valid configuration fixture for concrete witnesses. -/
def fixCfg : AppConfig :=
  { providers := [Provider.gemini, Provider.openai]
    apiKeys := { gemini := some "gk", openai := some "ok" }
    models := fun p => match p with
      | Provider.gemini => some "gemini-model"
      | Provider.openai => some "gpt-model"
      | _ => none
    clientName := "Acme"
    competitors := ["Rival"]
    prompts := ["best crm?"]
    additionalQuestions := [] }

/-- Benign network behavior fixture: every stage succeeds. -/
def fixNetOk : NetBehavior :=
  { raw := Fetch.ok "Acme is great", analysis := Fetch.ok "reply"
    geminiParse := Except.ok [], brandsParse := Except.ok (BrandsPayload.present [])
    blockParse := Except.ok [], answers := fun _ => Fetch.ok "yes" }

/-- Oracle fixture: all providers behave benignly for all prompts. -/
def fixOracle : Oracle := fun _ _ => fixNetOk

/-- Schedule fixture: provider 1 settles before provider 0. -/
def fixSched : Schedule := fun _ => [1, 0]

/-- Results of the benign fixture run. -/
def fixRes : List AnalysisResult := runResults fixCfg fixOracle

/-- Network fixture whose Perplexity stage-2 reply contains no fenced json
block (every parse field poisoned to show none of them is consulted). -/
def cexC2Net : NetBehavior :=
  { raw := Fetch.ok "The raw answer", analysis := Fetch.ok "no fenced json here"
    geminiParse := Except.error "x", brandsParse := Except.error "x"
    blockParse := Except.error "x", answers := fun _ => Fetch.err "x" }

/-- C2 counterexample: a Perplexity structured-extraction reply with no
fenced json block (hence no extractable JSON) nevertheless yields a
success-shaped ProviderResponse whose `response` retains the raw-completion
text and whose brandAnalyses is `[]`, contradicting the claim that every
extraction failure is error-shaped with the raw text dropped. -/
theorem c2_counterexample :
    extractJsonBlock "no fenced json here" = none
    ∧ (runPerplexityAnalysisForPrompt fixCfg cexC2Net).error = none
    ∧ (runPerplexityAnalysisForPrompt fixCfg cexC2Net).response = "The raw answer"
    ∧ (runPerplexityAnalysisForPrompt fixCfg cexC2Net).brandAnalyses = [] := by
  exact ⟨rfl, rfl, rfl, rfl⟩

/-- C2 (amended): when the structured-extraction reply fails to parse, the
provider response is error-shaped (all data fields empty, raw text dropped)
— for Gemini and the whole-payload providers (OpenAI, Copilot) whenever
`JSON.parse` throws, and for Perplexity whenever a fenced json block is
present but fails to parse; but a Perplexity reply with no fenced block at
all instead yields a success-shaped response with empty brandAnalyses and
the raw text retained. -/
theorem c2_amended (config : AppConfig) (net : NetBehavior) :
    (∀ r a m, net.raw = Fetch.ok r → net.analysis = Fetch.ok a →
        net.geminiParse = Except.error m →
        runGeminiAnalysisForPrompt config net = errorResponse Provider.gemini m)
    ∧ (∀ r a m, net.raw = Fetch.ok r → net.analysis = Fetch.ok a →
        net.brandsParse = Except.error m →
        runOpenAIAnalysisForPrompt config net = errorResponse Provider.openai m
        ∧ runCopilotAnalysisForPrompt config net = errorResponse Provider.copilot m)
    ∧ (∀ r a m b, net.raw = Fetch.ok r → net.analysis = Fetch.ok a →
        extractJsonBlock a = some b → net.blockParse = Except.error m →
        runPerplexityAnalysisForPrompt config net = errorResponse Provider.perplexity m)
    ∧ (∀ r a ans, net.raw = Fetch.ok r → net.analysis = Fetch.ok a →
        extractJsonBlock a = none →
        collectAnswers config.additionalQuestions net.answers = Except.ok ans →
        runPerplexityAnalysisForPrompt config net
          = { provider := Provider.perplexity, response := r, brandAnalyses := [],
              additionalAnswers := ans, error := none }) := by
  refine ⟨?_, ?_, ?_, ?_⟩
  · intro r a m hr ha hm
    simp [runGeminiAnalysisForPrompt, hr, ha, hm]
  · intro r a m hr ha hm
    constructor
    · simp [runOpenAIAnalysisForPrompt, hr, ha, hm]
    · simp [runCopilotAnalysisForPrompt, hr, ha, hm]
  · intro r a m b hr ha hb hm
    simp [runPerplexityAnalysisForPrompt, hr, ha, hb, hm]
  · intro r a ans hr ha hb hans
    simp [runPerplexityAnalysisForPrompt, hr, ha, hb, hans]

/-- Network fixture whose Perplexity stage-2 reply has a fenced json block
that fails to parse. -/
def witC2Net : NetBehavior :=
  { raw := Fetch.ok "raw", analysis := Fetch.ok "pre ```json\nnot json\n``` post"
    geminiParse := Except.ok [], brandsParse := Except.ok BrandsPayload.missing
    blockParse := Except.error "Unexpected token", answers := fun _ => Fetch.ok "a" }

/-- Closed instantiation of the C2 amended theorem: a Perplexity reply whose
fenced block fails to parse is error-shaped with the raw text dropped. -/
theorem c2_witness :
    extractJsonBlock "pre ```json\nnot json\n``` post" = some ("not json".data)
    ∧ runPerplexityAnalysisForPrompt fixCfg witC2Net
        = errorResponse Provider.perplexity "Unexpected token" := by
  constructor
  · rfl
  · exact (c2_amended fixCfg witC2Net).2.2.1 "raw" "pre ```json\nnot json\n``` post"
      "Unexpected token" ("not json".data) rfl rfl rfl rfl

/-- Network fixture producing a success response whose three data fields are
all empty: empty raw text, a parsed payload with an empty brands array, and
no auxiliary questions configured. -/
def cexC3Net : NetBehavior :=
  { raw := Fetch.ok "", analysis := Fetch.ok "reply"
    geminiParse := Except.ok [], brandsParse := Except.ok (BrandsPayload.present [])
    blockParse := Except.ok [], answers := fun _ => Fetch.ok "a" }

/-- C3 counterexample: an OpenAI adapter call whose raw completion is the
empty string, whose parsed brands array is empty, and with no auxiliary
questions, returns a ProviderResponse with `response = ""`,
`brandAnalyses = []`, `additionalAnswers = []` and yet no `error` — so
`error` set is not equivalent to the three data fields being empty. -/
theorem c3_counterexample :
    (runOpenAIAnalysisForPrompt fixCfg cexC3Net).response = ""
    ∧ (runOpenAIAnalysisForPrompt fixCfg cexC3Net).brandAnalyses = []
    ∧ (runOpenAIAnalysisForPrompt fixCfg cexC3Net).additionalAnswers = []
    ∧ (runOpenAIAnalysisForPrompt fixCfg cexC3Net).error = none := by
  exact ⟨rfl, rfl, rfl, rfl⟩

/-- C3 (amended): the forward direction holds — for every ProviderResponse
produced by any of the four adapters, and for the orchestrator fallback
shape, if `error` is set then the response is exactly the error shape:
`response = ""`, `brandAnalyses = []`, `additionalAnswers = []`.  (The
converse fails: a successful call can also return all-empty data fields.) -/
theorem c3_amended (config : AppConfig) :
    (∀ p net msg, (runProviderFor p config net).error = some msg →
        runProviderFor p config net = errorResponse p msg)
    ∧ (∀ p msg, (orchestratorFallback p msg).error = some msg
        ∧ (orchestratorFallback p msg).response = ""
        ∧ (orchestratorFallback p msg).brandAnalyses = []
        ∧ (orchestratorFallback p msg).additionalAnswers = []) := by
  constructor
  · intro p net msg herr
    rcases runProviderFor_shape p config net with ⟨m, hm⟩ | hnone
    · rw [hm] at herr ⊢
      simp only [errorResponse, Option.some.injEq] at herr
      rw [herr]
    · rw [hnone] at herr
      cases herr
  · intro p msg
    exact ⟨rfl, rfl, rfl, rfl⟩

/-- Network fixture whose raw stage throws. -/
def witC3Net : NetBehavior :=
  { raw := Fetch.err "API Error (500): boom", analysis := Fetch.ok "x"
    geminiParse := Except.ok [], brandsParse := Except.ok BrandsPayload.missing
    blockParse := Except.ok [], answers := fun _ => Fetch.ok "a" }

/-- Closed instantiation of the C3 amended theorem: an adapter response with
a raw-stage failure is exactly the error shape. -/
theorem c3_witness :
    (runProviderFor Provider.openai fixCfg witC3Net).error = some "API Error (500): boom"
    ∧ runProviderFor Provider.openai fixCfg witC3Net
      = errorResponse Provider.openai "API Error (500): boom" := by
  constructor
  · rfl
  · exact (c3_amended fixCfg).1 Provider.openai witC3Net "API Error (500): boom" rfl

/-- C4: for every run that returns, the AnalysisResult list has one entry
per input prompt in input order; each entry's providerResponses list is the
provider-selection-order list of that prompt's adapter responses (so its
provider tags equal the configured provider list, position by position); and
the returned value is identical under any other settlement schedule. -/
theorem c4_order_preservation (config : AppConfig) (oracle : Oracle) (s1 s2 : Schedule)
    (res : List AnalysisResult)
    (hok : (runAnalysisModel config oracle s1).result = Except.ok res) :
    res.length = config.prompts.length
    ∧ (∀ i, i < config.prompts.length →
        res[i]? = some { prompt := config.prompts.getD i ""
                         providerResponses := config.providers.map
                           fun p => runProviderFor p config (oracle i p) })
    ∧ (∀ (i : Nat) (r : AnalysisResult), res[i]? = some r →
        r.providerResponses.map ProviderResponse.provider = config.providers)
    ∧ (runAnalysisModel config oracle s2).result = Except.ok res := by
  have hres : res = runResults config oracle := run_ok_eq config oracle s1 res hok
  subst hres
  refine ⟨runResults_length config oracle, ?_, ?_, ?_⟩
  · intro i hi
    rw [runResults, List.getElem?_map]
    rw [List.getElem?_range hi]
    rfl
  · intro i r hr
    rw [runResults, List.getElem?_map] at hr
    cases hri : (List.range config.prompts.length)[i]? with
    | none => rw [hri] at hr; cases hr
    | some i2 =>
      rw [hri] at hr
      simp only [Option.map_some', Option.some.injEq] at hr
      rw [← hr]
      simp only [promptResponses, List.map_map]
      have hcomp : (ProviderResponse.provider ∘ fun p => runProviderFor p config (oracle i2 p))
          = fun p => p := by
        funext p
        exact runProviderFor_provider p config (oracle i2 p)
      rw [hcomp]
      simp
  · rw [run_result_sched_indep config oracle s2 s1]
    exact hok

/-- Closed instantiation of C4 on the benign fixture run: the result list
has one entry per prompt and the result is schedule-independent. -/
theorem c4_witness :
    (runAnalysisModel fixCfg fixOracle fixSched).result = Except.ok fixRes
    ∧ fixRes.length = fixCfg.prompts.length
    ∧ (runAnalysisModel fixCfg fixOracle (fun _ => [0, 1])).result = Except.ok fixRes := by
  refine ⟨rfl, ?_, ?_⟩
  · exact (c4_order_preservation fixCfg fixOracle fixSched fixSched fixRes rfl).1
  · exact (c4_order_preservation fixCfg fixOracle fixSched (fun _ => [0, 1]) fixRes
      rfl).2.2.2

/-- C6: two runs over the same configuration whose oracles agree on every
(prompt, provider) pair other than (i0, pA) — in particular when provider
pA fails for prompt i0 in one run and succeeds in the other — return
results of equal length, with identical prompts, and identical
ProviderResponses at every position not naming (i0, pA), under any
schedules. -/
theorem c6_failure_isolation (config : AppConfig) (o1 o2 : Oracle) (s1 s2 : Schedule)
    (i0 : Nat) (pA : Provider) (r1 r2 : List AnalysisResult)
    (hok1 : (runAnalysisModel config o1 s1).result = Except.ok r1)
    (hok2 : (runAnalysisModel config o2 s2).result = Except.ok r2)
    (hagree : ∀ i p, i < config.prompts.length → p ∈ config.providers →
      ¬(i = i0 ∧ p = pA) → o1 i p = o2 i p) :
    r1.length = r2.length
    ∧ (∀ (i : Nat) (x1 x2 : AnalysisResult), r1[i]? = some x1 → r2[i]? = some x2 →
        x1.prompt = x2.prompt
        ∧ ∀ k, k < config.providers.length →
            ¬(i = i0 ∧ config.providers.getD k Provider.gemini = pA) →
            x1.providerResponses[k]? = x2.providerResponses[k]?) := by
  have h1 : r1 = runResults config o1 := run_ok_eq config o1 s1 r1 hok1
  have h2 : r2 = runResults config o2 := run_ok_eq config o2 s2 r2 hok2
  subst h1
  subst h2
  constructor
  · rw [runResults_length, runResults_length]
  · intro i x1 x2 hx1 hx2
    rw [runResults, List.getElem?_map] at hx1 hx2
    cases hri : (List.range config.prompts.length)[i]? with
    | none => rw [hri] at hx1; cases hx1
    | some i2 =>
      have hii : i2 = i := by
        obtain ⟨hlt, heq⟩ := List.getElem?_eq_some_iff.mp hri
        rw [List.getElem_range] at heq
        exact heq.symm
      subst hii
      rw [hri] at hx1 hx2
      simp only [Option.map_some', Option.some.injEq] at hx1 hx2
      rw [← hx1, ← hx2]
      refine ⟨rfl, ?_⟩
      intro k hk hnot
      simp only [promptResponses, List.getElem?_map, List.getElem?_eq_getElem hk,
        Option.map_some']
      have hi2P : i2 < config.prompts.length := by
        have := (List.getElem?_eq_some_iff.mp hri).1
        simpa using this
      have : o1 i2 config.providers[k] = o2 i2 config.providers[k] := by
        apply hagree _ _ hi2P (config.providers.getElem_mem hk)
        rw [getD_of_lt _ _ _ hk] at hnot
        exact hnot
      rw [this]

/-- Oracle fixture in which OpenAI fails for prompt 0. -/
def failOracle : Oracle := fun _ p =>
  match p with
  | Provider.openai => { fixNetOk with raw := Fetch.err "API Error (429): quota" }
  | _ => fixNetOk

/-- Closed instantiation of C6: a run in which OpenAI's call fails and one
in which it succeeds have identical Gemini responses for the same prompt. -/
theorem c6_witness :
    (runAnalysisModel fixCfg fixOracle fixSched).result = Except.ok fixRes
    ∧ (runAnalysisModel fixCfg failOracle fixSched).result
        = Except.ok (runResults fixCfg failOracle)
    ∧ ∀ x1 x2, fixRes[0]? = some x1 → (runResults fixCfg failOracle)[0]? = some x2 →
        x1.providerResponses[0]? = x2.providerResponses[0]? := by
  refine ⟨rfl, rfl, ?_⟩
  intro x1 x2 hx1 hx2
  have h := (c6_failure_isolation fixCfg fixOracle failOracle fixSched fixSched 0
    Provider.openai fixRes (runResults fixCfg failOracle) rfl rfl ?_).2 0 x1 x2 hx1 hx2
  · exact (h.2 0 (by decide) (by decide))
  · intro i p hiP hpmem hne
    have hi0 : i = 0 := by
      simp [fixCfg] at hiP
      omega
    subst hi0
    cases p with
    | openai => exact absurd ⟨rfl, rfl⟩ hne
    | gemini => rfl
    | perplexity => rfl
    | copilot => rfl

theorem run_ok_cases (config : AppConfig) (oracle : Oracle) (sched : Schedule)
    (res : List AnalysisResult)
    (hok : (runAnalysisModel config oracle sched).result = Except.ok res) :
    ∃ clients, initializeClients config = Except.ok clients
      ∧ ((config.prompts.length = 0
            ∧ (runAnalysisModel config oracle sched).events = [Event.emit (buildTasks config)]
            ∧ (runAnalysisModel config oracle sched).finalTasks = buildTasks config)
        ∨ (firstThrow clients config = none
            ∧ (runAnalysisModel config oracle sched).events
              = Event.emit (buildTasks config)
                :: (execMEvs (buildTasks config) (runMEvs clients config oracle sched)).2
            ∧ (runAnalysisModel config oracle sched).finalTasks
              = (execMEvs (buildTasks config) (runMEvs clients config oracle sched)).1)) := by
  have hok2 := hok
  unfold runAnalysisModel at hok2
  split at hok2
  · simp at hok2
  · rename_i clients hinit
    refine ⟨clients, hinit, ?_⟩
    split at hok2
    · rename_i msg hft
      split at hok2
      · rename_i hP
        left
        refine ⟨hP, ?_, ?_⟩ <;> (unfold runAnalysisModel; simp [hinit, hft, hP])
      · simp at hok2
    · rename_i hft
      right
      have hshape := run_valid_shape config oracle sched clients hinit hft
      refine ⟨hft, ?_, ?_⟩ <;> rw [hshape]

theorem settleUpd_eq (config : AppConfig) (oracle : Oracle) (i k : Nat)
    (hk : k < config.providers.length) :
    settleUpd config oracle i k
      = (if jsTruthy (runProviderFor config.providers[k] config
            (oracle i config.providers[k])).error = true
         then { id := mkId i config.providers[k], status := TaskStatus.error,
                errMsg := (runProviderFor config.providers[k] config
                  (oracle i config.providers[k])).error }
         else { id := mkId i config.providers[k], status := TaskStatus.completed,
                errMsg := none }) := by
  simp only [settleUpd, getD_of_lt _ _ _ hk]

theorem final_length (config : AppConfig) (clients : LlmClients) (oracle : Oracle)
    (sched : Schedule) :
    (execMEvs (buildTasks config) (runMEvs clients config oracle sched)).1.length
      = config.prompts.length * config.providers.length := by
  have hids := execMEvs_ids (buildTasks config) (runMEvs clients config oracle sched)
  have hlen : ((execMEvs (buildTasks config) (runMEvs clients config oracle sched)).1.map
      Task.id).length = ((buildTasks config).map Task.id).length := by rw [hids]
  simpa [buildTasks_length] using hlen

/-- C5: for every configuration with P prompts and N selected providers, the
task list built at the start of run has exactly P×N entries — one per
(prompt, provider) pair in prompt-major, provider-minor order (the entry at
position i×N+k is the task of prompt i and provider k) — all pending; and
when run returns, every entry of the final task list is terminal
(`completed` or `error`). -/
theorem c5_task_count (config : AppConfig) (oracle : Oracle) (sched : Schedule)
    (res : List AnalysisResult)
    (hnd : config.providers.Nodup)
    (hok : (runAnalysisModel config oracle sched).result = Except.ok res) :
    (buildTasks config).length = config.prompts.length * config.providers.length
    ∧ (∀ (i k : Nat) (hi : i < config.prompts.length) (hk : k < config.providers.length),
        (buildTasks config)[i * config.providers.length + k]?
          = some (mkTask config i config.providers[k]))
    ∧ (∀ t ∈ buildTasks config, t.status = TaskStatus.pending)
    ∧ (∀ t ∈ (runAnalysisModel config oracle sched).finalTasks,
        t.status = TaskStatus.completed ∨ t.status = TaskStatus.error) := by
  refine ⟨buildTasks_length config, ?_, buildTasks_pending config, ?_⟩
  · intro i k hi hk
    exact tasksFor_getElem? config _ i k hi hk
  · intro t ht
    obtain ⟨clients, hinit, hcase | hcase⟩ := run_ok_cases config oracle sched res hok
    · rw [hcase.2.2] at ht
      rw [buildTasks, hcase.1] at ht
      simp [tasksFor] at ht
    · rw [hcase.2.2] at ht
      obtain ⟨j, hj, hgt⟩ := List.mem_iff_getElem.mp ht
      have hjlt : j < config.prompts.length * config.providers.length := by
        rw [← final_length config clients oracle sched]
        exact hj
      have hN : 0 < config.providers.length := by
        rcases Nat.eq_zero_or_pos config.providers.length with h0 | h0
        · rw [h0, Nat.mul_zero] at hjlt; omega
        · exact h0
      have hi : j / config.providers.length < config.prompts.length :=
        (Nat.div_lt_iff_lt_mul hN).mpr hjlt
      have hk : j % config.providers.length < config.providers.length := Nat.mod_lt _ hN
      have hchar := (run_task_character config oracle sched clients hcase.1 hnd
        (j / config.providers.length) (j % config.providers.length) hi hk).1
      have hjj : j / config.providers.length * config.providers.length
          + j % config.providers.length = j := by
        rw [Nat.mul_comm (j / config.providers.length) config.providers.length]
        exact Nat.div_add_mod j config.providers.length
      rw [hjj] at hchar
      have hsome : (execMEvs (buildTasks config)
          (runMEvs clients config oracle sched)).1[j]?
            = some ((execMEvs (buildTasks config)
              (runMEvs clients config oracle sched)).1[j]) :=
        List.getElem?_eq_getElem hj
      rw [hchar] at hsome
      have ht2 : t = setTask (setTask (mkTask config (j / config.providers.length)
          (config.providers[j % config.providers.length]))
          { id := mkId (j / config.providers.length)
              (config.providers[j % config.providers.length])
            status := TaskStatus.in_progress, errMsg := none })
          (settleUpd config oracle (j / config.providers.length)
            (j % config.providers.length)) := by
        rw [← hgt]
        injection hsome with h2
        exact h2.symm
      rw [ht2]
      rw [show (setTask (setTask _ _) (settleUpd config oracle
        (j / config.providers.length) (j % config.providers.length))).status
          = (settleUpd config oracle (j / config.providers.length)
            (j % config.providers.length)).status from rfl]
      exact settleUpd_status config oracle _ _

/-- Closed instantiation of C5 on the benign fixture run: 1×2 tasks, all
pending initially, all terminal at the end. -/
theorem c5_witness :
    fixCfg.providers.Nodup
    ∧ (runAnalysisModel fixCfg fixOracle fixSched).result = Except.ok fixRes
    ∧ (buildTasks fixCfg).length = fixCfg.prompts.length * fixCfg.providers.length
    ∧ (∀ t ∈ (runAnalysisModel fixCfg fixOracle fixSched).finalTasks,
        t.status = TaskStatus.completed ∨ t.status = TaskStatus.error) := by
  refine ⟨by decide, rfl, ?_, ?_⟩
  · exact (c5_task_count fixCfg fixOracle fixSched fixRes (by decide) rfl).1
  · exact (c5_task_count fixCfg fixOracle fixSched fixRes (by decide) rfl).2.2.2

/-- C7 (amended): upon settlement of a provider call, the task is marked
`completed` exactly when the returned ProviderResponse's `error` field is
JS-falsy (absent or the empty string) — the code tests
`if (response.error)` — and whenever `error` is JS-truthy the task is marked
`error` carrying the message.  (The original claim's `completed iff no error
field` fails: an empty-string error field is recorded as `completed`.) -/
theorem c7_settlement (config : AppConfig) (oracle : Oracle) (sched : Schedule)
    (res : List AnalysisResult) (i0 k0 : Nat)
    (hnd : config.providers.Nodup)
    (hok : (runAnalysisModel config oracle sched).result = Except.ok res)
    (hi : i0 < config.prompts.length) (hk : k0 < config.providers.length) :
    ∃ t, (runAnalysisModel config oracle sched).finalTasks[i0 * config.providers.length + k0]?
        = some t
      ∧ (t.status = TaskStatus.completed
          ↔ jsTruthy (runProviderFor config.providers[k0] config
              (oracle i0 config.providers[k0])).error = false)
      ∧ (jsTruthy (runProviderFor config.providers[k0] config
            (oracle i0 config.providers[k0])).error = true →
          t.status = TaskStatus.error
          ∧ t.error = (runProviderFor config.providers[k0] config
              (oracle i0 config.providers[k0])).error) := by
  obtain ⟨clients, hinit, hcase | hcase⟩ := run_ok_cases config oracle sched res hok
  · rw [hcase.1] at hi
    omega
  · rw [hcase.2.2]
    have hchar := (run_task_character config oracle sched clients hcase.1 hnd i0 k0 hi hk).1
    rw [settleUpd_eq config oracle i0 k0 hk] at hchar
    cases htr : jsTruthy (runProviderFor config.providers[k0] config
        (oracle i0 config.providers[k0])).error with
    | true =>
      obtain ⟨m, herr⟩ : ∃ m, (runProviderFor config.providers[k0] config
          (oracle i0 config.providers[k0])).error = some m := by
        cases herr : (runProviderFor config.providers[k0] config
            (oracle i0 config.providers[k0])).error with
        | none => rw [herr] at htr; simp [jsTruthy] at htr
        | some m => exact ⟨m, rfl⟩
      rw [herr] at htr hchar
      rw [if_pos htr] at hchar
      refine ⟨_, hchar, ?_, ?_⟩
      · constructor
        · intro hcomp
          exact absurd hcomp (by simp [setTask])
        · intro hfalse
          cases hfalse
      · intro _
        refine ⟨by simp [setTask], ?_⟩
        rw [herr]
        simp [setTask, htr]
    | false =>
      rw [if_neg (by simp [htr])] at hchar
      refine ⟨_, hchar, ?_, ?_⟩
      · constructor
        · intro _
          rfl
        · intro _
          simp [setTask]
      · intro habs
        cases habs

/-- Oracle fixture in which every raw call throws an Error whose message is
the empty string. -/
def emptyErrOracle : Oracle := fun _ _ => { fixNetOk with raw := Fetch.err "" }

/-- Single-provider single-prompt configuration fixture. -/
def cfgO : AppConfig :=
  { providers := [Provider.openai]
    apiKeys := { openai := some "ok" }
    models := fun _ => some "m"
    clientName := "Acme"
    competitors := []
    prompts := ["p"]
    additionalQuestions := [] }

/-- C7 counterexample: a provider call returning a ProviderResponse whose
`error` field is present (the empty string) is nevertheless recorded as a
`completed` task — `if (response.error)` tests truthiness, not presence —
refuting `completed iff no error field`. -/
theorem c7_counterexample :
    (runProviderFor Provider.openai cfgO (emptyErrOracle 0 Provider.openai)).error = some ""
    ∧ ((runAnalysisModel cfgO emptyErrOracle fixSched).finalTasks.getD 0 default).status
        = TaskStatus.completed := by
  exact ⟨rfl, by decide⟩

/-- Closed instantiation of C7 on a run whose provider call fails with a
non-empty message: the task ends in `error` carrying the message. -/
theorem c7_witness :
    (runAnalysisModel cfgO failOracle fixSched).result
        = Except.ok (runResults cfgO failOracle)
    ∧ ∃ t, (runAnalysisModel cfgO failOracle fixSched).finalTasks[0]? = some t
        ∧ t.status = TaskStatus.error
        ∧ t.error = some "API Error (429): quota" := by
  refine ⟨rfl, ?_⟩
  obtain ⟨t, hsome, hiff, herr⟩ := c7_settlement cfgO failOracle fixSched
    (runResults cfgO failOracle) 0 0 (by decide) rfl (by decide) (by decide)
  refine ⟨t, hsome, ?_, ?_⟩
  · exact (herr (by decide)).1
  · have := (herr (by decide)).2
    rw [this]
    rfl

/-- C8: on a run that returns, the observer is invoked once at
initialization with the all-pending list and then once per task status
change, always synchronously with the entire current task list: the
emission sequence starts with the initial all-pending task list, has exactly
1 + 2·P·N entries, and every emitted list has full length P·N. -/
theorem c8_snapshots (config : AppConfig) (oracle : Oracle) (sched : Schedule)
    (res : List AnalysisResult)
    (hnd : config.providers.Nodup)
    (hok : (runAnalysisModel config oracle sched).result = Except.ok res) :
    (emissions (runAnalysisModel config oracle sched)).head? = some (buildTasks config)
    ∧ (emissions (runAnalysisModel config oracle sched)).length
        = 1 + 2 * (config.prompts.length * config.providers.length)
    ∧ (∀ s ∈ emissions (runAnalysisModel config oracle sched),
        s.length = config.prompts.length * config.providers.length)
    ∧ (∀ t ∈ buildTasks config, t.status = TaskStatus.pending) := by
  obtain ⟨clients, hinit, hcase | hcase⟩ := run_ok_cases config oracle sched res hok
  · rw [emissions, hcase.2.1]
    refine ⟨rfl, ?_, ?_, buildTasks_pending config⟩
    · rw [hcase.1]
      simp [snapsOf]
    · intro s hs
      have hsb : s = buildTasks config := by simpa [snapsOf] using hs
      rw [hsb, buildTasks_length]
  · rw [emissions, hcase.2.1, snapsOf_cons_emit]
    refine ⟨rfl, ?_, ?_, buildTasks_pending config⟩
    · rw [List.length_cons]
      rw [execMEvs_snaps_count (buildTasks config) (runMEvs clients config oracle sched)
        (runMEvs_found clients config oracle sched)]
      rw [runMEvs_upd_count clients config oracle sched]
      ring
    · intro s hs
      rcases List.mem_cons.mp hs with h | h
      · rw [h, buildTasks_length]
      · have hids := execMEvs_snaps_ids (buildTasks config)
          (runMEvs clients config oracle sched) s h
        have : (s.map Task.id).length = ((buildTasks config).map Task.id).length := by
          rw [hids]
        simpa [buildTasks_length] using this

/-- Closed instantiation of C8 on the benign fixture run: 5 emissions of
length 2 each, the first all-pending. -/
theorem c8_witness :
    (runAnalysisModel fixCfg fixOracle fixSched).result = Except.ok fixRes
    ∧ (emissions (runAnalysisModel fixCfg fixOracle fixSched)).length
        = 1 + 2 * (fixCfg.prompts.length * fixCfg.providers.length)
    ∧ (emissions (runAnalysisModel fixCfg fixOracle fixSched)).head?
        = some (buildTasks fixCfg) := by
  refine ⟨rfl, ?_, ?_⟩
  · exact (c8_snapshots fixCfg fixOracle fixSched fixRes (by decide) rfl).2.1
  · exact (c8_snapshots fixCfg fixOracle fixSched fixRes (by decide) rfl).1

/-- C9: on a run that returns, each task's status sequence across the
emitted snapshots is forward-only pending → in_progress → terminal: it is
literally a block of `pending`, then a block of `in_progress`, then a block
of one terminal status (`completed` or `error`), each block non-empty —
so each task enters `in_progress` exactly once, a terminal state exactly
once, and no transition ever leaves a terminal state. -/
theorem c9_state_machine (config : AppConfig) (oracle : Oracle) (sched : Schedule)
    (res : List AnalysisResult) (j : Nat)
    (hnd : config.providers.Nodup)
    (hok : (runAnalysisModel config oracle sched).result = Except.ok res)
    (hj : j < config.prompts.length * config.providers.length) :
    ∃ a b c t, 0 < a ∧ 0 < b ∧ 0 < c
      ∧ (t = TaskStatus.completed ∨ t = TaskStatus.error)
      ∧ (emissions (runAnalysisModel config oracle sched)).map (statusAt j)
          = List.replicate a TaskStatus.pending ++ List.replicate b TaskStatus.in_progress
            ++ List.replicate c t := by
  obtain ⟨clients, hinit, hcase | hcase⟩ := run_ok_cases config oracle sched res hok
  · rw [hcase.1] at hj
    omega
  · have hN : 0 < config.providers.length := by
      rcases Nat.eq_zero_or_pos config.providers.length with h0 | h0
      · rw [h0, Nat.mul_zero] at hj; omega
      · exact h0
    have hi : j / config.providers.length < config.prompts.length :=
      (Nat.div_lt_iff_lt_mul hN).mpr hj
    have hk : j % config.providers.length < config.providers.length := Nat.mod_lt _ hN
    have hjj : j / config.providers.length * config.providers.length
        + j % config.providers.length = j := by
      rw [Nat.mul_comm (j / config.providers.length) config.providers.length]
      exact Nat.div_add_mod j config.providers.length
    obtain ⟨na, nb, nc, hmap⟩ :=
      (run_task_character config oracle sched clients hcase.1 hnd
        (j / config.providers.length) (j % config.providers.length) hi hk).2
    rw [hjj] at hmap
    refine ⟨na + 1, nb + 1, nc + 1, (settleUpd config oracle
      (j / config.providers.length) (j % config.providers.length)).status,
      by omega, by omega, by omega, settleUpd_status config oracle _ _, ?_⟩
    rw [emissions, hcase.2.1, snapsOf_cons_emit, List.map_cons, hmap]
    have hfirst : statusAt j (buildTasks config) = TaskStatus.pending := by
      have hv : (buildTasks config)[j]? = some (mkTask config
          (j / config.providers.length) config.providers[j % config.providers.length]) := by
        have hv0 := tasksFor_getElem? config config.prompts.length
          (j / config.providers.length) (j % config.providers.length) hi hk
        rw [hjj] at hv0
        exact hv0
      rw [statusAt_of_getElem? _ j _ hv, mkTask_status]
    rw [hfirst]
    simp [List.replicate_succ]

/-- Closed instantiation of C9 on the benign fixture run for task 0. -/
theorem c9_witness :
    (runAnalysisModel fixCfg fixOracle fixSched).result = Except.ok fixRes
    ∧ ∃ a b c t, 0 < a ∧ 0 < b ∧ 0 < c
      ∧ (t = TaskStatus.completed ∨ t = TaskStatus.error)
      ∧ (emissions (runAnalysisModel fixCfg fixOracle fixSched)).map (statusAt 0)
          = List.replicate a TaskStatus.pending ++ List.replicate b TaskStatus.in_progress
            ++ List.replicate c t := by
  exact ⟨rfl, c9_state_machine fixCfg fixOracle fixSched fixRes 0 (by decide) rfl
    (by decide)⟩

/-- C10: each array passed to onProgress is a fresh list whose elements are
references to the same P·N task objects of the orchestrator's store (the
spread `[...tasks]` copies the array, not the task objects).  In the
reference model every emission carries exactly the store positions
0..P·N-1, so dereferencing any earlier-emitted array in the final store
yields the final, mutated tasks — while the deep content of the first
emission at emission time (all pending) differs from the final store: the
snapshot is shallow, not a deep immutable copy. -/
theorem c10_shallow_snapshot (config : AppConfig) (oracle : Oracle) (sched : Schedule)
    (res : List AnalysisResult)
    (hnd : config.providers.Nodup)
    (hok : (runAnalysisModel config oracle sched).result = Except.ok res)
    (hpos : 0 < config.prompts.length * config.providers.length) :
    (∀ s ∈ emissions (runAnalysisModel config oracle sched),
        emitRefs s = List.range (config.prompts.length * config.providers.length))
    ∧ (∀ s ∈ emissions (runAnalysisModel config oracle sched),
        viewRefs (runAnalysisModel config oracle sched).finalTasks (emitRefs s)
          = (runAnalysisModel config oracle sched).finalTasks)
    ∧ (emissions (runAnalysisModel config oracle sched)).head? = some (buildTasks config)
    ∧ buildTasks config ≠ (runAnalysisModel config oracle sched).finalTasks := by
  obtain ⟨clients, hinit, hcase | hcase⟩ := run_ok_cases config oracle sched res hok
  · rw [hcase.1] at hpos
    simp at hpos
  · have hlensnap : ∀ s ∈ emissions (runAnalysisModel config oracle sched),
        s.length = config.prompts.length * config.providers.length := by
      intro s hs
      rw [emissions, hcase.2.1, snapsOf_cons_emit] at hs
      rcases List.mem_cons.mp hs with h | h
      · rw [h, buildTasks_length]
      · have hids := execMEvs_snaps_ids (buildTasks config)
          (runMEvs clients config oracle sched) s h
        have hl : (s.map Task.id).length = ((buildTasks config).map Task.id).length := by
          rw [hids]
        simpa [buildTasks_length] using hl
    have hflen : (runAnalysisModel config oracle sched).finalTasks.length
        = config.prompts.length * config.providers.length := by
      rw [hcase.2.2]
      exact final_length config clients oracle sched
    refine ⟨?_, ?_, ?_, ?_⟩
    · intro s hs
      rw [emitRefs, hlensnap s hs]
    · intro s hs
      rw [emitRefs, hlensnap s hs, ← hflen]
      exact viewRefs_range _
    · rw [emissions, hcase.2.1, snapsOf_cons_emit]
      rfl
    · intro hEq
      have hP : 0 < config.prompts.length := by
        rcases Nat.eq_zero_or_pos config.prompts.length with h0 | h0
        · rw [h0] at hpos; simp at hpos
        · exact h0
      have hN : 0 < config.providers.length := by
        rcases Nat.eq_zero_or_pos config.providers.length with h0 | h0
        · rw [h0] at hpos; simp at hpos
        · exact h0
      have hchar := (run_task_character config oracle sched clients hcase.1 hnd 0 0 hP hN).1
      simp only [Nat.zero_mul, Nat.zero_add] at hchar
      have hv : (buildTasks config)[0]? = some (mkTask config 0 config.providers[0]) := by
        have := tasksFor_getElem? config config.prompts.length 0 0 hP hN
        simpa using this
      rw [← hcase.2.2, ← hEq] at hchar
      have h2 := hv.symm.trans hchar
      injection h2 with h3
      have h4 := congrArg Task.status h3
      rw [mkTask_status] at h4
      have h5 : (setTask (setTask (mkTask config 0 config.providers[0])
          { id := mkId 0 config.providers[0], status := TaskStatus.in_progress,
            errMsg := none }) (settleUpd config oracle 0 0)).status
          = (settleUpd config oracle 0 0).status := rfl
      rw [h5] at h4
      rcases settleUpd_status config oracle 0 0 with h6 | h6 <;> rw [h6] at h4 <;> cases h4

/-- Closed instantiation of C10 on the benign fixture run. -/
theorem c10_witness :
    (runAnalysisModel fixCfg fixOracle fixSched).result = Except.ok fixRes
    ∧ buildTasks fixCfg ≠ (runAnalysisModel fixCfg fixOracle fixSched).finalTasks
    ∧ (∀ s ∈ emissions (runAnalysisModel fixCfg fixOracle fixSched),
        emitRefs s = List.range (fixCfg.prompts.length * fixCfg.providers.length)) := by
  refine ⟨rfl, ?_, ?_⟩
  · exact (c10_shallow_snapshot fixCfg fixOracle fixSched fixRes (by decide) rfl
      (by decide)).2.2.2
  · exact (c10_shallow_snapshot fixCfg fixOracle fixSched fixRes (by decide) rfl
      (by decide)).1

/-- The complete set of error messages run can throw: the five
configuration-validation messages (and nothing else). -/
def configErrorMessages : List String :=
  ["Google Gemini API Key is missing.", "Gemini client not initialized properly.",
   "OpenAI client not initialized properly.", "Perplexity client not initialized properly.",
   "Copilot client not initialized properly."]

theorem initializeClients_error (config : AppConfig) (msg : String)
    (h : initializeClients config = Except.error msg) :
    msg = "Google Gemini API Key is missing." := by
  unfold initializeClients at h
  split at h
  · simp only [Except.error.injEq] at h
    exact h.symm
  · cases h

theorem checkProvider_messages (clients : LlmClients) (config : AppConfig) (p : Provider)
    (m : String) (h : checkProvider clients config p = some m) :
    m ∈ configErrorMessages := by
  cases p <;> simp only [checkProvider] at h <;> split at h
  all_goals first
    | (simp only [Option.some.injEq] at h; subst h; decide)
    | cases h

theorem initializeClients_ok_guard (config : AppConfig) (clients : LlmClients)
    (h : initializeClients config = Except.ok clients) :
    config.providers.contains Provider.gemini = true →
      jsTruthy config.apiKeys.gemini = true := by
  intro hcont
  unfold initializeClients at h
  by_cases hg : (config.providers.contains Provider.gemini
      && !(jsTruthy config.apiKeys.gemini)) = true
  · rw [if_pos hg] at h
    cases h
  · cases hkey : jsTruthy config.apiKeys.gemini with
    | true => rfl
    | false => exact absurd (by rw [hcont, hkey]; rfl) hg

theorem initializeClients_ok_exists (config : AppConfig)
    (h : config.providers.contains Provider.gemini = true →
      jsTruthy config.apiKeys.gemini = true) :
    ∃ clients, initializeClients config = Except.ok clients := by
  unfold initializeClients
  have hg : ¬ ((config.providers.contains Provider.gemini
      && !(jsTruthy config.apiKeys.gemini)) = true) := by
    cases hcont : config.providers.contains Provider.gemini with
    | false => simp [hcont]
    | true => simp [hcont, h hcont]
  rw [if_neg hg]
  exact ⟨_, rfl⟩

/-- C1 (amended): configuration validation is the only failure that
propagates out of run, and only a missing Gemini API key for a selected
Gemini provider is detected upfront, before task creation and any network
call.  Missing credentials or models for the other providers (and a missing
Gemini model) are only detected inside the first prompt's dispatch, and the
resulting error rejects the whole run — after sibling providers' first
network calls may already have been issued (see the counterexample).
Precisely: (a) a selected Gemini provider with a JS-falsy key makes run
throw "Google Gemini API Key is missing." with an empty event trace;
(b) run returns a value iff the Gemini key guard passes and, when at least
one prompt exists, every selected provider has truthy credentials and a
truthy model; (c) every error run throws is one of the five
configuration-validation messages. -/
theorem c1_config_failures (config : AppConfig) (oracle : Oracle) (sched : Schedule) :
    ((config.providers.contains Provider.gemini = true
        ∧ jsTruthy config.apiKeys.gemini = false) →
      runAnalysisModel config oracle sched
        = { result := Except.error "Google Gemini API Key is missing.", events := [],
            finalTasks := [] })
    ∧ ((∃ r, (runAnalysisModel config oracle sched).result = Except.ok r)
        ↔ ((config.providers.contains Provider.gemini = true →
              jsTruthy config.apiKeys.gemini = true)
          ∧ (config.prompts.length = 0
              ∨ ∀ p ∈ config.providers, credsOk config p = true)))
    ∧ (∀ msg, (runAnalysisModel config oracle sched).result = Except.error msg →
        msg ∈ configErrorMessages) := by
  refine ⟨?_, ?_, ?_⟩
  · rintro ⟨hcont, hkey⟩
    have hinit : initializeClients config
        = Except.error "Google Gemini API Key is missing." := by
      unfold initializeClients
      rw [if_pos (by rw [hcont, hkey]; rfl)]
    unfold runAnalysisModel
    simp only [hinit]
  · constructor
    · rintro ⟨r, hok⟩
      obtain ⟨clients, hinit, hcase | hcase⟩ := run_ok_cases config oracle sched r hok
      · exact ⟨initializeClients_ok_guard config clients hinit, Or.inl hcase.1⟩
      · exact ⟨initializeClients_ok_guard config clients hinit,
          Or.inr ((firstThrow_none_iff config clients hinit).mp hcase.1)⟩
    · rintro ⟨hgem, hrest⟩
      obtain ⟨clients, hinit⟩ := initializeClients_ok_exists config hgem
      rcases hrest with hP | hcreds
      · cases hft : firstThrow clients config with
        | some msg =>
          refine ⟨[], ?_⟩
          unfold runAnalysisModel
          simp [hinit, hft, hP]
        | none =>
          refine ⟨runResults config oracle, ?_⟩
          unfold runAnalysisModel
          simp [hinit, hft]
      · have hft : firstThrow clients config = none :=
          (firstThrow_none_iff config clients hinit).mpr hcreds
        refine ⟨runResults config oracle, ?_⟩
        unfold runAnalysisModel
        simp [hinit, hft]
  · intro msg hmsg
    unfold runAnalysisModel at hmsg
    split at hmsg
    · rename_i m hinitE
      have hm : m = msg := by simpa using hmsg
      rw [← hm, initializeClients_error config m hinitE]
      simp [configErrorMessages]
    · rename_i clients hinitOk
      split at hmsg
      · rename_i m hft
        split at hmsg
        · simp at hmsg
        · have hm : m = msg := by simpa using hmsg
          obtain ⟨p, hp, hcp⟩ := List.exists_of_findSome?_eq_some hft
          rw [← hm]
          exact checkProvider_messages clients config p m hcp
      · simp at hmsg

/-- Configuration with a fully configured Gemini provider listed before an
OpenAI provider whose API key is absent. -/
def cexC1Cfg : AppConfig :=
  { providers := [Provider.gemini, Provider.openai]
    apiKeys := { gemini := some "gk" }
    models := fun _ => some "m"
    clientName := "Acme"
    competitors := []
    prompts := ["p"]
    additionalQuestions := [] }

/-- C1 counterexample: with a valid Gemini provider listed before an OpenAI
provider that lacks its key, the run does fail with the configuration
error, but only at dispatch of the first prompt: the trace shows Gemini's
first network call (index 2) issued strictly before the configuration
throw (index 4) — the error is not raised before any network call. -/
theorem c1_counterexample :
    (runAnalysisModel cexC1Cfg fixOracle fixSched).result
        = Except.error "OpenAI client not initialized properly."
    ∧ (runAnalysisModel cexC1Cfg fixOracle fixSched).events[2]?
        = some (Event.netCall 0 Provider.gemini)
    ∧ (runAnalysisModel cexC1Cfg fixOracle fixSched).events[4]?
        = some (Event.configThrow "OpenAI client not initialized properly.")
    ∧ (runAnalysisModel cexC1Cfg fixOracle fixSched).events.length = 5 := by
  exact ⟨rfl, by decide, by decide, by decide⟩

/-- Configuration selecting Gemini with no API key at all. -/
def cexC1gCfg : AppConfig :=
  { providers := [Provider.gemini]
    apiKeys := {}
    models := fun _ => some "m"
    clientName := "Acme"
    competitors := []
    prompts := ["p"]
    additionalQuestions := [] }

/-- Closed instantiation of C1 (amended): a selected Gemini provider with no
key fails the whole run upfront, before any task creation, emission or
network call. -/
theorem c1_witness :
    runAnalysisModel cexC1gCfg fixOracle fixSched
      = { result := Except.error "Google Gemini API Key is missing.", events := [],
          finalTasks := [] } :=
  (c1_config_failures cexC1gCfg fixOracle fixSched).1 ⟨rfl, rfl⟩

end LlmVis
